import Mathlib

/-!
Verification of the mftplus course scraper (zi-gax/mftplus_course_scraper).

The file shallowly embeds the field normalizers and the incremental
reconciliation algorithm of `src/update_courses.py` (with the fetch-loop
variant of `src/update_courses_filter.py` where the claims involve it) and
proves/refutes the frozen claims about them.

Modelling conventions:
* Python values that can flow into the field normalizers (`None`, NaN,
  strings, ints) are modelled by the inductive `PyVal`; raw API fields that
  are only ever read via `dict.get` with a string default are modelled as
  `Option String` (with `none` standing for both an absent key and `null`).
* A Python `dict` keyed by course id is modelled as an insertion-ordered
  association list `List (String × CourseRecord)`; `dictInsert` replaces the
  value at the first occurrence of an existing key in place (preserving
  order) and otherwise appends, exactly like Python dict assignment.
* Exceptions raised by normalization (`int(...)` on non-numeric text,
  `jdatetime.date` on an out-of-range date) are modelled with
  `Except String`.
* The sync timestamp `now` (`datetime.now(TEHRAN_TZ).strftime(...)` in the
  source) is injected as an explicit parameter, as the spec prescribes for
  determinism; within one sync run the source computes the same formatted
  day string everywhere.
-/

namespace MftPlus

/-- Model of the Python values that flow into the field normalizers:
`pnone` stands for `None` (and for an absent key), `pnan` for a float NaN
(what `pandas` produces for a missing cell), `pstr` for a string and `pint`
for an int. -/
inductive PyVal where
  | pnone
  | pnan
  | pstr (s : String)
  | pint (n : Int)
deriving Repr, DecidableEq, Inhabited

/-- Python truthiness, as used by `if not val` tests in the source:
`None`, `""` and `0` are falsy; NaN is truthy. -/
def pyTruthy : PyVal → Bool
  | .pnone => false
  | .pnan => true
  | .pstr s => s != ""
  | .pint n => n != 0

/-- `pd.isna` on a scalar: true exactly for `None` and NaN. -/
def pyIsNa : PyVal → Bool
  | .pnone => true
  | .pnan => true
  | _ => false

/-- Python `str()` on the modelled values. -/
def pyToString : PyVal → String
  | .pnone => "None"
  | .pnan => "nan"
  | .pstr s => s
  | .pint n => toString n

/-- The `FA_TO_EN = str.maketrans("۰۱۲۳۴۵۶۷۸۹", "0123456789")` table applied
to one character: Persian-Arabic digits (U+06F0..U+06F9) become the
corresponding ASCII digits, everything else is unchanged. -/
def faToEnChar (c : Char) : Char :=
  if 0x6F0 ≤ c.toNat ∧ c.toNat ≤ 0x6F9 then Char.ofNat (c.toNat - 0x6F0 + 48) else c

/-- `str.translate(FA_TO_EN)`. -/
def faTranslate (s : String) : String :=
  String.mk (s.data.map faToEnChar)

/-- `fa_to_en_func` from `src/update_courses.py`: `None` on `pd.isna` input,
otherwise the translated string form of the value. -/
def fa_to_en_func (val : PyVal) : Option String :=
  if pyIsNa val then none else some (faTranslate (pyToString val))

/-- Value of a string of ASCII digits, as `int()` computes it on an
all-digits string. -/
def digitsToNat (cs : List Char) : Nat :=
  cs.foldl (fun a c => a * 10 + (c.toNat - 48)) 0

/-- Decimal digit characters (Unicode category Nd) on the alphabet this
program's data can contain: ASCII `0-9`, Arabic-Indic `٠-٩`
(U+0660..U+0669, which `FA_TO_EN` does NOT translate) and Extended
Arabic-Indic / Persian `۰-۹` (U+06F0..U+06F9).  Python's `int()` accepts a
string of exactly these. -/
def isNdDigit (c : Char) : Bool :=
  c.isDigit || (0x660 ≤ c.toNat && c.toNat ≤ 0x669) ||
  (0x6F0 ≤ c.toNat && c.toNat ≤ 0x6F9)

/-- Characters with the Unicode digit property that are NOT decimal digits
(Numeric_Type=Digit but not category Nd): `str.isdigit` accepts them but
`int()` raises `ValueError` on them.  Modelled alphabet: the superscript
digits `¹ ² ³` (U+00B9, U+00B2, U+00B3) and `⁰ ⁴-⁹` (U+2070,
U+2074..U+2079). -/
def isDigitClassOnly (c : Char) : Bool :=
  c.toNat == 0xB2 || c.toNat == 0xB3 || c.toNat == 0xB9 ||
  c.toNat == 0x2070 || (0x2074 ≤ c.toNat && c.toNat ≤ 0x2079)

/-- Python `str.isdigit`: nonempty and every character has the Unicode
digit property — a decimal digit (Nd) of any modelled script or a
digit-class character such as `²`. -/
def pyIsDigit (s : String) : Bool :=
  !s.isEmpty && s.data.all (fun c => isNdDigit c || isDigitClassOnly c)

/-- Numeric value of one Nd digit (only meaningful on `isNdDigit`
characters). -/
def ndDigitVal (c : Char) : Nat :=
  if c.isDigit then c.toNat - 48
  else if 0x660 ≤ c.toNat && c.toNat ≤ 0x669 then c.toNat - 0x660
  else c.toNat - 0x6F0

/-- Value of a string of Nd digits, as `int()` computes it. -/
def ndDigitsToNat (cs : List Char) : Nat :=
  cs.foldl (fun a c => a * 10 + ndDigitVal c) 0

/-- Python `int(str)` on the strings the source feeds it: surrounding
whitespace is stripped, an optional single sign is allowed, and the rest must
be a nonempty run of ASCII digits; otherwise a `ValueError` (here: `none`). -/
def pyParseInt (s : String) : Option Int :=
  let t := (s.data.dropWhile Char.isWhitespace).reverse.dropWhile Char.isWhitespace |>.reverse
  match t with
  | '+' :: ds => if ds.isEmpty || !ds.all Char.isDigit then none else some (digitsToNat ds)
  | '-' :: ds => if ds.isEmpty || !ds.all Char.isDigit then none else some (-(digitsToNat ds : Int))
  | ds => if ds.isEmpty || !ds.all Char.isDigit then none else some (digitsToNat ds)

/-- `normalize_price` from `src/update_courses.py` (lines 56-60):
falsy or NA values give `None`; otherwise the value is stringified,
Persian digits are translated, commas (thousands separators) are removed,
and the result is `int(val)` if the cleaned string `isdigit()` else `None`.
`.replace(",", "")` is rendered as removing every comma character.
`int()` parses the string exactly when all its characters are decimal (Nd)
digits; on an `isdigit`-true string containing a digit-class character such
as `²` it raises `ValueError`, which nothing here catches. -/
def normalize_price (val : PyVal) : Except String (Option Int) :=
  if !pyTruthy val || pyIsNa val then .ok none
  else
    let s := String.mk ((faTranslate (pyToString val)).data.filter (fun c => c != ','))
    if pyIsDigit s then
      if s.data.all isNdDigit then .ok (some (ndDigitsToNat s.data : Int))
      else .error "ValueError: invalid literal for int()"
    else .ok none

/-- The digit-translated, comma-stripped form of a price value. -/
def priceClean (val : PyVal) : String :=
  String.mk ((faTranslate (pyToString val)).data.filter (fun c => c != ','))

/-- `normalize_bool` from `src/update_courses.py` (lines 62-66):
`bool(int(val))` with every exception swallowed to `False`. -/
def normalize_bool (val : PyVal) : Bool :=
  match val with
  | .pint n => n != 0
  | .pstr s => match pyParseInt s with
    | some n => n != 0
    | none => false
  | _ => false

/-- The `MONTHS_FA` lookup table of `src/update_courses.py` (lines 43-48):
Persian month name to month number, `none` for an unknown name
(`dict.get` returning `None`). -/
def monthsFa (s : String) : Option Nat :=
  if s = "فروردین" then some 1
  else if s = "اردیبهشت" then some 2
  else if s = "خرداد" then some 3
  else if s = "تیر" then some 4
  else if s = "مرداد" then some 5
  else if s = "شهریور" then some 6
  else if s = "مهر" then some 7
  else if s = "آبان" then some 8
  else if s = "آذر" then some 9
  else if s = "دی" then some 10
  else if s = "بهمن" then some 11
  else if s = "اسفند" then some 12
  else none

/-- Word characters for the regex element `\w` on the alphabet the source
actually meets: ASCII alphanumerics, underscore, the Arabic-block letters
used by the Persian month names (U+0620..U+064A plus the extended Persian
letters) and Persian digits. -/
def isWordChar (c : Char) : Bool :=
  c.isAlphanum || c == '_' ||
  (0x620 ≤ c.toNat && c.toNat ≤ 0x64A) ||
  c.toNat == 0x67E || c.toNat == 0x686 || c.toNat == 0x698 ||
  c.toNat == 0x6A9 || c.toNat == 0x6AF || c.toNat == 0x6CC ||
  (0x6F0 ≤ c.toNat && c.toNat ≤ 0x6F9)

/-- Match exactly `n` ASCII digits at the head of `cs` (regex `\d{n}`),
returning the digits and the rest of the input. -/
def matchExactDigits : Nat → List Char → Option (List Char × List Char)
  | 0, cs => some ([], cs)
  | _ + 1, [] => none
  | n + 1, c :: cs =>
    if c.isDigit then (matchExactDigits n cs).map (fun p => (c :: p.1, p.2))
    else none

/-- Backtracking for the greedy `\w+` followed by a literal space and
`\d{4}`: month-name lengths are tried from `k` characters down to 1,
exactly like the regex engine shrinks a greedy `\w+`.  The caller passes
`k` = length of the maximal word-character run at the head of `cs`. -/
def tryWLen (cs : List Char) : Nat → Option (String × String)
  | 0 => none
  | k + 1 =>
    match cs.drop (k + 1) with
    | ' ' :: r2 =>
      match matchExactDigits 4 r2 with
      | some p => some (String.mk (cs.take (k + 1)), String.mk p.1)
      | none => tryWLen cs k
    | _ => tryWLen cs k

/-- Attempt to match `(\d{1,2}) (\w+) (\d{4})` with the match anchored at the
start of `cs`, trying the greedy two-digit day first. -/
def matchDateAt (cs : List Char) : Option (String × String × String) :=
  let tryDay : Nat → Option (String × String × String) := fun n =>
    match matchExactDigits n cs with
    | some (d, ' ' :: r2) =>
      match tryWLen r2 (r2.takeWhile isWordChar).length with
      | some (mo, y) => some (String.mk d, mo, y)
      | none => none
    | _ => none
  (tryDay 2).orElse (fun _ => tryDay 1)

/-- `re.search(r"(\d{1,2}) (\w+) (\d{4})", text)`: leftmost match wins. -/
def searchDate : List Char → Option (String × String × String)
  | [] => none
  | c :: rest =>
    match matchDateAt (c :: rest) with
    | some g => some g
    | none => searchDate rest

/-- Leap years of the Jalali calendar as decided by the `jdatetime`
dependency (33-year cycle). -/
def jIsLeap (y : Nat) : Bool :=
  let r := y % 33
  r == 1 || r == 5 || r == 9 || r == 13 || r == 17 || r == 22 || r == 26 || r == 30

/-- Days in a Jalali month per `jdatetime` (months 1-6 have 31 days,
7-11 have 30, month 12 has 29, or 30 in a leap year). -/
def jDaysInMonth (y m : Nat) : Nat :=
  if m ≤ 6 then 31 else if m ≤ 11 then 30 else if jIsLeap y then 30 else 29

/-- The validity check performed by `jdatetime.date(year, month, day)`;
an invalid combination raises `ValueError` in the source. -/
def jdateValid (y m d : Nat) : Bool :=
  1 ≤ y && y ≤ 9377 && 1 ≤ m && m ≤ 12 && 1 ≤ d && d ≤ jDaysInMonth y m

/-- Walk the Gregorian month-length table to split a day-of-year into
month and day. -/
def monthWalk : List Nat → Nat → Nat → Nat × Nat
  | [], m, gd => (m, gd)
  | v :: rest, m, gd => if gd ≤ v then (m, gd) else monthWalk rest (m + 1) (gd - v)

/-- Modelled from the spec: `jd.togregorian()` of the external `jdatetime`
dependency (whose code is not part of this repository) — "convert to the
proleptic Gregorian calendar", via the standard 33-year-cycle Jalali to
Gregorian conversion that `jdatetime` implements.  Only called on
`jdateValid` triples. -/
def jalaliToGregorian (jy0 jm jd : Nat) : Nat × Nat × Nat :=
  let jy := jy0 + 1595
  let days0 := 365 * jy + (jy / 33) * 8 + ((jy % 33 + 3) / 4) + jd +
      (if jm < 7 then (jm - 1) * 31 else (jm - 7) * 30 + 186)
  let days := days0 - 355668
  let gy1 := 400 * (days / 146097)
  let d1 := days % 146097
  let p :=
    if 36524 < d1 then
      let da := d1 - 1
      let g := gy1 + 100 * (da / 36524)
      let db := da % 36524
      (g, if 365 ≤ db then db + 1 else db)
    else (gy1, d1)
  let gy3 := p.1 + 4 * (p.2 / 1461)
  let d3 := p.2 % 1461
  let q := if 365 < d3 then (gy3 + (d3 - 1) / 365, (d3 - 1) % 365) else (gy3, d3)
  let gd := q.2 + 1
  let lens := [31, if q.1 % 4 == 0 && (q.1 % 100 != 0 || q.1 % 400 == 0) then 29 else 28,
      31, 30, 31, 30, 31, 31, 30, 31, 30, 31]
  let r := monthWalk lens 1 gd
  (q.1, r.1, r.2)

/-- Two-digit zero padding. -/
def pad2 (n : Nat) : String := if n < 10 then "0" ++ toString n else toString n

/-- Four-digit zero padding (ISO year field). -/
def pad4 (n : Nat) : String :=
  if n < 10 then "000" ++ toString n
  else if n < 100 then "00" ++ toString n
  else if n < 1000 then "0" ++ toString n
  else toString n

/-- `date.isoformat()` on a (year, month, day) triple. -/
def isoOfDate (g : Nat × Nat × Nat) : String :=
  pad4 g.1 ++ "-" ++ pad2 g.2.1 ++ "-" ++ pad2 g.2.2

/-- `normalize_jalali_date` from `src/update_courses.py` (lines 68-80).
The raw `start`/`end` fields are strings or missing, so the input is
`Option String` (`not text or pd.isna(text)` collapses to the `none` and
empty-string cases).  A date whose numbers are rejected by
`jdatetime.date` raises `ValueError`, modelled as `Except.error`. -/
def normalize_jalali_date (text : Option String) : Except String (Option String) :=
  match text with
  | none => .ok none
  | some s =>
    if s = "" then .ok none
    else
      let t := faTranslate s
      match searchDate t.data with
      | none => .ok none
      | some g =>
        match monthsFa g.2.1 with
        | none => .ok none
        | some m =>
          let y := digitsToNat g.2.2.data
          let d := digitsToNat g.1.data
          if jdateValid y m d then .ok (some (isoOfDate (jalaliToGregorian y m d)))
          else .error "ValueError: day is out of range for month"

/-- A raw API course object, with the fields `normalize_course` reads.
`oid` is `course["id"]["$oid"]`; fields read via `course.get(k, "")` or
compared against `[None, ""]` are `Option String` (`none` = absent/null);
`minCost`/`maxCost` go through `normalize_price`, which must also handle
numeric JSON values, hence `PyVal`. -/
structure RawCourse where
  oid : String
  number : Option String
  lessonId : Option String
  lessonUrl : Option String
  title : Option String
  dep : Option String
  center : Option String
  author : Option String
  start : Option String
  «end» : Option String
  capacity : Option String
  time : Option String
  days : List String
  minCost : PyVal
  maxCost : PyVal
  cover : Option String
  cer : Option String
deriving Repr, DecidableEq, Inhabited

/-- The canonical course record, one per `COLUMNS` entry of
`src/update_courses.py`. -/
structure CourseRecord where
  id : String
  class_id : String
  lesson_id : String
  title : String
  department : String
  center : String
  teacher : Option String
  start_date : Option String
  end_date : Option String
  capacity : Option Int
  duration_hours : Option Int
  days : String
  min_price : Option Int
  max_price : Option Int
  course_url : String
  cover : String
  certificate : String
  is_active : Bool
  changed_at : String
  updated_at : String
deriving Repr, DecidableEq, Inhabited

/-- UTF-8 bytes of one character (for percent-encoding). -/
def utf8Bytes (c : Char) : List Nat :=
  let n := c.toNat
  if n < 0x80 then [n]
  else if n < 0x800 then [0xC0 ||| (n >>> 6), 0x80 ||| (n &&& 0x3F)]
  else if n < 0x10000 then
    [0xE0 ||| (n >>> 12), 0x80 ||| ((n >>> 6) &&& 0x3F), 0x80 ||| (n &&& 0x3F)]
  else
    [0xF0 ||| (n >>> 18), 0x80 ||| ((n >>> 12) &&& 0x3F),
     0x80 ||| ((n >>> 6) &&& 0x3F), 0x80 ||| (n &&& 0x3F)]

/-- Uppercase hex digit. -/
def hexDigit (n : Nat) : Char :=
  if n < 10 then Char.ofNat (48 + n) else Char.ofNat (55 + n)

/-- `urllib.parse.quote`: ASCII alphanumerics, `_.-~` and the default-safe
`/` pass through, every other character is UTF-8 percent-encoded. -/
def urlquote (s : String) : String :=
  String.join (s.data.map (fun c =>
    if c.isAlphanum || c == '_' || c == '.' || c == '-' || c == '~' || c == '/'
    then String.mk [c]
    else String.join ((utf8Bytes c).map (fun b =>
      String.mk ['%', hexDigit (b / 16), hexDigit (b % 16)]))))

/-- `make_course_link` from `src/update_courses.py` (lines 86-87). -/
def make_course_link (course : RawCourse) : String :=
  "https://mftplus.com/lesson/" ++ course.lessonId.getD "" ++ "/" ++
    course.lessonUrl.getD "" ++ "?refp=" ++ urlquote (course.center.getD "")

/-- `" | ".join(...)`. -/
def joinSep (sep : String) : List String → String
  | [] => ""
  | [a] => a
  | a :: rest => a ++ sep ++ joinSep sep rest

/-- The `int(fa_to_en_func(v)) if v not in [None, ""] else None` pattern used
for `capacity` and `duration_hours` in `normalize_course`; a non-numeric
string makes `int()` raise `ValueError`, modelled as `Except.error`. -/
def intField (v : Option String) : Except String (Option Int) :=
  match v with
  | none => .ok none
  | some s =>
    if s = "" then .ok none
    else
      match pyParseInt (faTranslate s) with
      | some n => .ok (some n)
      | none => .error "ValueError: invalid literal for int()"

/-- `normalize_course` from `src/update_courses.py` (lines 89-112), with the
sync day-stamp `now` injected.  The fallible fields are evaluated in the
order the Python dict literal evaluates them (`start_date`, `end_date`,
`capacity`, `duration_hours`, `min_price`, `max_price`); the first raised
exception aborts. -/
def normalize_course (course : RawCourse) (is_active : PyVal) (changed_at : String)
    (now : String) : Except String CourseRecord :=
  match normalize_jalali_date course.start with
  | .error e => .error e
  | .ok sd =>
  match normalize_jalali_date course.«end» with
  | .error e => .error e
  | .ok ed =>
  match intField course.capacity with
  | .error e => .error e
  | .ok cap =>
  match intField course.time with
  | .error e => .error e
  | .ok dur =>
  match normalize_price course.minCost with
  | .error e => .error e
  | .ok minp =>
  match normalize_price course.maxCost with
  | .error e => .error e
  | .ok maxp =>
  .ok {
    id := course.oid
    class_id := course.number.getD ""
    lesson_id := course.lessonId.getD ""
    title := course.title.getD ""
    department := course.dep.getD ""
    center := course.center.getD ""
    teacher :=
      match course.author with
      | none => none
      | some a => if a = "مشخص نشده" ∨ a = "" then none else some a
    start_date := sd
    end_date := ed
    capacity := cap
    duration_hours := dur
    days := joinSep " | " course.days
    min_price := minp
    max_price := maxp
    course_url := make_course_link course
    cover := course.cover.getD ""
    certificate := course.cer.getD ""
    is_active := normalize_bool is_active
    changed_at := changed_at
    updated_at := now
  }

/-- A Python dict keyed by course id: an insertion-ordered association
list. -/
abbrev Snap := List (String × CourseRecord)

/-- Python dict lookup (`m.get(k)` / `m[k]`): value at the key's (unique)
occurrence. -/
def dictGet : Snap → String → Option CourseRecord
  | [], _ => none
  | p :: rest, k => if p.1 = k then some p.2 else dictGet rest k

/-- Python dict assignment `m[k] = v`: replace at an existing key in place
(preserving insertion order), else append. -/
def dictInsert : Snap → String → CourseRecord → Snap
  | [], k, v => [(k, v)]
  | p :: rest, k, v => if p.1 = k then (k, v) :: rest else p :: dictInsert rest k v

/-- The keys of the dict, in order. -/
def dictKeys (m : Snap) : List String := m.map (fun p => p.1)

/-- `for c in l: m[c["id"]] = c` — the merge loops of `sync`
(lines 194-195). -/
def dictInsertMany (m : Snap) (l : List CourseRecord) : Snap :=
  l.foldl (fun acc r => dictInsert acc r.id r) m

/-- Well-formedness of a loaded snapshot: dict keys are unique (Python
guarantees this) and each row is stored under its own `id` (how every
snapshot written by `sync` is keyed). -/
def SnapWF (m : Snap) : Prop :=
  (dictKeys m).Nodup ∧ ∀ p ∈ m, p.2.id = p.1

instance (m : Snap) : Decidable (SnapWF m) := by
  unfold SnapWF; infer_instance

/-- One iteration of the `for c in raw` loop of `sync` (lines 177-182):
compute `prev`, the transition flag `changed`, and normalize with
`is_active = 1` and the chosen `changed_at`. -/
def apiCourse1 (m : Snap) (now : String) (c : RawCourse) : Except String CourseRecord :=
  let prev := dictGet m c.oid
  let changed := prev.isNone || !((prev.map (fun p => p.is_active)).getD true)
  normalize_course c (.pint 1)
    (if changed then now else (prev.map (fun p => p.changed_at)).getD now) now

/-- The whole `for c in raw` loop: the first exception aborts the sync. -/
def apiCoursesGo (m : Snap) (now : String) : List RawCourse → Except String (List CourseRecord)
  | [] => .ok []
  | c :: rest =>
    match apiCourse1 m now c with
    | .error e => .error e
    | .ok r =>
      match apiCoursesGo m now rest with
      | .error e => .error e
      | .ok rs => .ok (r :: rs)

/-- The output of one reconciliation run: the merged snapshot and the
`new`/`expired`/`revived` partitions. -/
structure SyncResult where
  final : Snap
  new : List CourseRecord
  expired : List CourseRecord
  revived : List CourseRecord
deriving Repr, DecidableEq, Inhabited

/-- The reconciliation core of `sync` from `src/update_courses.py`
(lines 168-196), minus the file/network I/O around it: partition the prior
snapshot by activity, normalize every fetched record (with the
`changed_at`-carrying rule), compute the `new`/`revived`/`expired`
partitions and merge, the api records overwriting first and the expired
rows second. -/
def sync (existing_map : Snap) (raw : List RawCourse) (now : String) :
    Except String SyncResult :=
  let old_active := (existing_map.filter (fun p => p.2.is_active)).map (fun p => p.1)
  let old_inactive := (existing_map.filter (fun p => !p.2.is_active)).map (fun p => p.1)
  let api_ids := raw.map (fun c => c.oid)
  match apiCoursesGo existing_map now raw with
  | .error e => .error e
  | .ok api_courses =>
    let new := api_courses.filter (fun c => (dictGet existing_map c.id).isNone)
    let revived := api_courses.filter (fun c => old_inactive.contains c.id)
    let expired_ids := old_active.filter (fun cid => !api_ids.contains cid)
    let expired := expired_ids.filterMap (fun cid =>
      (dictGet existing_map cid).map (fun row =>
        { row with is_active := false, changed_at := now, updated_at := now }))
    let final := dictInsertMany
      (dictInsertMany [] (existing_map.map (fun p => p.2)))
      (api_courses ++ expired)
    .ok { final := final, new := new, expired := expired, revived := revived }

/-- `PAGE_SIZE` policy constant. -/
def PAGE_SIZE : Nat := 9

/-- `MAX_EMPTY_PAGES` policy constant: the consecutive-empty-page
termination threshold. -/
def MAX_EMPTY_PAGES : Nat := 2

/-- The network, abstracted: for each `skip` offset, a page either arrives
(`Except.ok` with its record list) or the transport fails (`Except.error`). -/
def Net (α : Type) := Nat → Except Unit (List α)

/-- `fetch_page` from `src/update_courses.py` (lines 145-147): no handler,
a transport error propagates. -/
def fetch_page_uc {α : Type} (net : Net α) (skip : Nat) : Except Unit (List α) :=
  net skip

/-- `fetch_all` from `src/update_courses.py` (lines 149-165): the paging
loop, with explicit fuel standing for the unbounded `while True` (the `.ok
none` fuel-exhaustion result never claims termination).  An exception from
`fetch_page` escapes the loop. -/
def fetch_all_uc {α : Type} (net : Net α) :
    Nat → Nat → Nat → List α → Except Unit (Option (List α))
  | 0, _, _, _ => .ok none
  | fuel + 1, skip, empty, acc =>
    match fetch_page_uc net skip with
    | .error e => .error e
    | .ok data =>
      if data.isEmpty then
        if MAX_EMPTY_PAGES ≤ empty + 1 then .ok (some acc)
        else fetch_all_uc net fuel (skip + PAGE_SIZE) (empty + 1) acc
      else fetch_all_uc net fuel (skip + PAGE_SIZE) 0 (acc ++ data)

/-- `fetch_page` from `src/update_courses_filter.py` (lines 141-147):
every exception is caught and the page becomes `[]`. -/
def fetch_page_filter {α : Type} (net : Net α) (skip : Nat) : List α :=
  match net skip with
  | .ok d => d
  | .error _ => []

/-- `fetch_all_courses` from `src/update_courses_filter.py`
(lines 149-168): same loop over the recovering `fetch_page`; no
transport error can escape (witness the return type). -/
def fetch_all_filter {α : Type} (net : Net α) :
    Nat → Nat → Nat → List α → Option (List α)
  | 0, _, _, _ => none
  | fuel + 1, skip, empty, acc =>
    let data := fetch_page_filter net skip
    if data.isEmpty then
      if MAX_EMPTY_PAGES ≤ empty + 1 then some acc
      else fetch_all_filter net fuel (skip + PAGE_SIZE) (empty + 1) acc
    else fetch_all_filter net fuel (skip + PAGE_SIZE) 0 (acc ++ data)

/-- The last record of `l` whose `id` is `k` (the one that survives the
Python overwrite loop), if any. -/
def lastIdMatch (l : List CourseRecord) (k : String) : Option CourseRecord :=
  l.reverse.find? (fun r => r.id == k)

/-- The `changed_at` value the loop hands to `normalize_course`, as a
function of the prior record. -/
def caSelect (prev : Option CourseRecord) (now : String) : String :=
  if prev.isNone || !((prev.map (fun p => p.is_active)).getD true) then now
  else (prev.map (fun p => p.changed_at)).getD now

/-- The value extracted from a successful `apiCourse1` run (only meaningful
under `(apiCourse1 m now c).isOk`). -/
def apiOk (m : Snap) (now : String) (c : RawCourse) : CourseRecord :=
  match apiCourse1 m now c with
  | .ok r => r
  | .error _ => default

/-- A snapshot is keyed when each row is stored under its own id. -/
def Keyed (m : Snap) : Prop := ∀ p ∈ m, p.2.id = p.1

/-! ### Concrete sample data used by witnesses and counterexamples -/

/-- A minimal raw API record with identity `"A"`. -/
def rawA : RawCourse :=
  { oid := "A", number := none, lessonId := none, lessonUrl := none, title := none,
    dep := none, center := none, author := none, start := none, «end» := none,
    capacity := none, time := none, days := [], minCost := .pnone, maxCost := .pnone,
    cover := none, cer := none }

/-- The same raw record with identity `"B"`. -/
def rawB : RawCourse := { rawA with oid := "B" }

/-- `rawA` with a different title: a duplicate identity in the fresh set. -/
def rawA2 : RawCourse := { rawA with title := some "t2" }

/-- A raw record whose capacity is non-numeric text (`int()` raises on it). -/
def rawBadCapacity : RawCourse := { rawA with capacity := some "نامشخص" }

/-- A raw record whose start date carries an out-of-range Jalali day. -/
def rawBadDate : RawCourse := { rawA with start := some "35 مهر 1402" }

/-- A minimal stored course record with identity `"A"`, active, last touched
on 2024-01-01. -/
def baseRec : CourseRecord :=
  { id := "A", class_id := "", lesson_id := "", title := "", department := "",
    center := "", teacher := none, start_date := none, end_date := none,
    capacity := none, duration_hours := none, days := "", min_price := none,
    max_price := none, course_url := "", cover := "", certificate := "",
    is_active := true, changed_at := "2024-01-01", updated_at := "2024-01-01" }

/-- `baseRec`, inactive. -/
def recInactiveA : CourseRecord := { baseRec with is_active := false }

/-- Snapshot holding the single inactive record `"A"`. -/
def snapInactiveA : Snap := [("A", recInactiveA)]

/-- Snapshot holding the single active record `"A"`. -/
def snapActiveA : Snap := [("A", baseRec)]

/-- Snapshot holding a single inactive record `"B"`. -/
def snapInactiveB : Snap := [("B", { baseRec with id := "B", is_active := false })]

/-- Extracts the result of a `sync` run that is known to succeed (the
witness scenarios below all do; the `default` branch is never taken
there). -/
def syncOk (m : Snap) (raw : List RawCourse) (now : String) : SyncResult :=
  match sync m raw now with
  | .ok r => r
  | .error _ => default

/-! ### Lemmas about the dict model -/

theorem dictKeys_nil : dictKeys [] = [] := rfl

theorem dictKeys_cons (p : String × CourseRecord) (rest : Snap) :
    dictKeys (p :: rest) = p.1 :: dictKeys rest := rfl

theorem dictGet_insert (m : Snap) (k : String) (v : CourseRecord) (a : String) :
    dictGet (dictInsert m k v) a = if a = k then some v else dictGet m a := by
  induction m with
  | nil =>
    simp only [dictInsert]
    by_cases h : a = k
    · subst h; simp [dictGet]
    · have h' : ¬ k = a := fun hh => h hh.symm
      simp [dictGet, h, h']
  | cons p rest ih =>
    simp only [dictInsert]
    by_cases hpk : p.1 = k
    · subst hpk
      rw [if_pos rfl]
      by_cases hak : a = p.1
      · subst hak; simp [dictGet]
      · have h' : ¬ p.1 = a := fun hh => hak hh.symm
        simp [dictGet, h', hak]
    · rw [if_neg hpk]
      by_cases hpa : p.1 = a
      · have hak : ¬ a = k := fun hh => hpk (hpa.trans hh)
        simp [dictGet, hpa, hak]
      · simp [dictGet, hpa, ih]

theorem mem_dictKeys_insert (m : Snap) (k : String) (v : CourseRecord) (a : String) :
    a ∈ dictKeys (dictInsert m k v) ↔ a = k ∨ a ∈ dictKeys m := by
  induction m with
  | nil => simp [dictInsert, dictKeys]
  | cons p rest ih =>
    simp only [dictInsert]
    by_cases hpk : p.1 = k
    · rw [if_pos hpk, dictKeys_cons, dictKeys_cons]
      subst hpk
      simp only [List.mem_cons]
      tauto
    · rw [if_neg hpk, dictKeys_cons, dictKeys_cons]
      simp only [List.mem_cons, ih]
      tauto

theorem dictKeys_insert_of_mem (m : Snap) (k : String) (v : CourseRecord)
    (h : k ∈ dictKeys m) : dictKeys (dictInsert m k v) = dictKeys m := by
  induction m with
  | nil => simp [dictKeys] at h
  | cons p rest ih =>
    rw [dictKeys_cons, List.mem_cons] at h
    simp only [dictInsert]
    by_cases hpk : p.1 = k
    · rw [if_pos hpk, dictKeys_cons, dictKeys_cons, hpk]
    · rw [if_neg hpk, dictKeys_cons, dictKeys_cons]
      rcases h with h | h
      · exact absurd h.symm hpk
      · rw [ih h]

theorem dictKeys_insert_of_not_mem (m : Snap) (k : String) (v : CourseRecord)
    (h : k ∉ dictKeys m) : dictKeys (dictInsert m k v) = dictKeys m ++ [k] := by
  induction m with
  | nil => simp [dictInsert, dictKeys]
  | cons p rest ih =>
    rw [dictKeys_cons, List.mem_cons] at h
    push_neg at h
    simp only [dictInsert]
    rw [if_neg (fun hh => h.1 hh.symm), dictKeys_cons, dictKeys_cons, ih h.2]
    rfl

theorem nodup_dictKeys_insert (m : Snap) (k : String) (v : CourseRecord)
    (h : (dictKeys m).Nodup) : (dictKeys (dictInsert m k v)).Nodup := by
  by_cases hk : k ∈ dictKeys m
  · rw [dictKeys_insert_of_mem m k v hk]; exact h
  · rw [dictKeys_insert_of_not_mem m k v hk]
    simp [List.nodup_append, h, hk]

theorem length_le_dictInsert (m : Snap) (k : String) (v : CourseRecord) :
    m.length ≤ (dictInsert m k v).length := by
  induction m with
  | nil => simp [dictInsert]
  | cons p rest ih =>
    simp only [dictInsert]
    by_cases hpk : p.1 = k
    · rw [if_pos hpk]; simp
    · rw [if_neg hpk]
      simpa using ih

theorem dictGet_eq_none_iff (m : Snap) (k : String) :
    dictGet m k = none ↔ k ∉ dictKeys m := by
  induction m with
  | nil => simp [dictGet, dictKeys]
  | cons p rest ih =>
    rw [dictKeys_cons, List.mem_cons]
    simp only [dictGet]
    by_cases hpk : p.1 = k
    · simp [hpk]
    · have h' : ¬ k = p.1 := fun hh => hpk hh.symm
      simp [hpk, ih, h']

theorem dictGet_mem (m : Snap) (k : String) (v : CourseRecord)
    (h : dictGet m k = some v) : (k, v) ∈ m := by
  induction m with
  | nil => simp [dictGet] at h
  | cons p rest ih =>
    obtain ⟨a, b⟩ := p
    simp only [dictGet] at h
    by_cases hak : a = k
    · rw [if_pos hak] at h
      have hb : b = v := Option.some.inj h
      subst hak; subst hb
      exact List.mem_cons_self _ _
    · rw [if_neg hak] at h
      exact List.mem_cons_of_mem _ (ih h)

theorem dictGet_of_mem (m : Snap) (k : String) (v : CourseRecord)
    (hnd : (dictKeys m).Nodup) (h : (k, v) ∈ m) : dictGet m k = some v := by
  induction m with
  | nil => simp at h
  | cons p rest ih =>
    obtain ⟨a, b⟩ := p
    rw [dictKeys_cons] at hnd
    have hnd1 := List.nodup_cons.mp hnd
    rcases List.mem_cons.mp h with h | h
    · have h1 : k = a ∧ v = b := by
        have := congrArg Prod.fst h
        have := congrArg Prod.snd h
        simp_all
      simp [dictGet, h1.1.symm, h1.2]
    · have hkrest : k ∈ dictKeys rest := List.mem_map.mpr ⟨(k, v), h, rfl⟩
      have hak : ¬ a = k := fun he => hnd1.1 (he ▸ hkrest)
      simp only [dictGet]
      rw [if_neg hak]
      exact ih hnd1.2 h

theorem snap_ext (M M' : Snap) (hk : dictKeys M = dictKeys M')
    (hnd : (dictKeys M).Nodup) (hget : ∀ k, dictGet M k = dictGet M' k) : M = M' := by
  induction M generalizing M' with
  | nil =>
    cases M' with
    | nil => rfl
    | cons q rest' => exact absurd hk (by simp [dictKeys])
  | cons p rest ih =>
    cases M' with
    | nil => exact absurd hk (by simp [dictKeys])
    | cons q rest' =>
      obtain ⟨a, b⟩ := p
      obtain ⟨c, d⟩ := q
      rw [dictKeys_cons, dictKeys_cons] at hk
      injection hk with hk1 hk2
      have hac : a = c := hk1
      rw [dictKeys_cons] at hnd
      have hnd1 := List.nodup_cons.mp hnd
      have hna : a ∉ dictKeys rest := hnd1.1
      have hbd : b = d := by
        have hh := hget a
        rw [show dictGet ((a, b) :: rest) a = some b from by simp [dictGet],
          show dictGet ((c, d) :: rest') a = some d from by simp [dictGet, ← hac]] at hh
        exact Option.some.inj hh
      have hrest : rest = rest' := by
        apply ih rest' hk2 hnd1.2
        intro k
        by_cases hak : a = k
        · subst hak
          have h1 : dictGet rest a = none := (dictGet_eq_none_iff rest a).mpr hna
          have h2 : dictGet rest' a = none :=
            (dictGet_eq_none_iff rest' a).mpr (hk2 ▸ hna)
          rw [h1, h2]
        · have hh := hget k
          have hck : ¬ c = k := fun he => hak (hac.trans he)
          simp only [dictGet] at hh
          rw [if_neg hak, if_neg hck] at hh
          exact hh
      rw [hac, hbd, hrest]

theorem lastIdMatch_nil (k : String) : lastIdMatch [] k = none := rfl

theorem some_or (a : CourseRecord) (o : Option CourseRecord) :
    Option.or (some a) o = some a := rfl

theorem none_or (o : Option CourseRecord) : Option.or none o = o := rfl

theorem lastIdMatch_cons (r : CourseRecord) (l : List CourseRecord) (k : String) :
    lastIdMatch (r :: l) k =
      (lastIdMatch l k).or (if r.id = k then some r else none) := by
  simp only [lastIdMatch, List.reverse_cons, List.find?_append]
  congr 1
  by_cases h : r.id = k
  · simp [List.find?, h]
  · have hb : (r.id == k) = false := beq_eq_false_iff_ne.mpr h
    simp [List.find?, hb, h]

theorem lastIdMatch_eq_none_iff (l : List CourseRecord) (k : String) :
    lastIdMatch l k = none ↔ ∀ r ∈ l, r.id ≠ k := by
  simp only [lastIdMatch, List.find?_eq_none, List.mem_reverse]
  constructor
  · intro h r hr he
    exact absurd (beq_iff_eq.mpr he) (by simpa using h r hr)
  · intro h r hr
    simpa using h r hr

theorem lastIdMatch_mem (l : List CourseRecord) (k : String) (r : CourseRecord)
    (h : lastIdMatch l k = some r) : r ∈ l ∧ r.id = k := by
  have h1 := List.find?_some h
  have h2 := List.mem_reverse.mp (List.mem_of_find?_eq_some h)
  exact ⟨h2, beq_iff_eq.mp h1⟩

theorem dictInsertMany_nil (m : Snap) : dictInsertMany m [] = m := rfl

theorem dictInsertMany_cons (m : Snap) (r : CourseRecord) (l : List CourseRecord) :
    dictInsertMany m (r :: l) = dictInsertMany (dictInsert m r.id r) l := rfl

theorem dictInsertMany_append (m : Snap) (l1 l2 : List CourseRecord) :
    dictInsertMany m (l1 ++ l2) = dictInsertMany (dictInsertMany m l1) l2 := by
  simp [dictInsertMany, List.foldl_append]

theorem dictGet_insertMany (m : Snap) (l : List CourseRecord) (k : String) :
    dictGet (dictInsertMany m l) k = (lastIdMatch l k).or (dictGet m k) := by
  induction l generalizing m with
  | nil => simp [dictInsertMany, lastIdMatch, Option.or]
  | cons r l ih =>
    rw [dictInsertMany_cons, ih, dictGet_insert, lastIdMatch_cons]
    cases hl : lastIdMatch l k with
    | some x => rw [some_or, some_or, some_or]
    | none =>
      rw [none_or, none_or]
      by_cases hrk : r.id = k
      · rw [if_pos hrk, if_pos hrk.symm, some_or]
      · have h' : ¬ k = r.id := fun hh => hrk hh.symm
        rw [if_neg hrk, if_neg h', none_or]

theorem mem_dictKeys_insertMany (m : Snap) (l : List CourseRecord) (a : String) :
    a ∈ dictKeys (dictInsertMany m l) ↔ a ∈ dictKeys m ∨ ∃ r ∈ l, r.id = a := by
  induction l generalizing m with
  | nil => simp [dictInsertMany]
  | cons r l ih =>
    rw [dictInsertMany_cons, ih]
    rw [mem_dictKeys_insert]
    simp only [List.mem_cons]
    constructor
    · rintro ((h | h) | h)
      · exact Or.inr ⟨r, Or.inl rfl, h.symm⟩
      · exact Or.inl h
      · rcases h with ⟨x, hx, he⟩
        exact Or.inr ⟨x, Or.inr hx, he⟩
    · rintro (h | ⟨x, hx | hx, he⟩)
      · exact Or.inl (Or.inr h)
      · exact Or.inl (Or.inl (hx ▸ he.symm))
      · exact Or.inr ⟨x, hx, he⟩

theorem dictKeys_insertMany_of_sub (m : Snap) (l : List CourseRecord)
    (h : ∀ r ∈ l, r.id ∈ dictKeys m) : dictKeys (dictInsertMany m l) = dictKeys m := by
  induction l generalizing m with
  | nil => rfl
  | cons r l ih =>
    rw [dictInsertMany_cons]
    have h1 : dictKeys (dictInsert m r.id r) = dictKeys m :=
      dictKeys_insert_of_mem m r.id r (h r (List.mem_cons_self _ _))
    rw [ih (dictInsert m r.id r) (fun x hx => h1 ▸ h x (List.mem_cons_of_mem _ hx)), h1]

theorem nodup_dictKeys_insertMany (m : Snap) (l : List CourseRecord)
    (h : (dictKeys m).Nodup) : (dictKeys (dictInsertMany m l)).Nodup := by
  induction l generalizing m with
  | nil => exact h
  | cons r l ih =>
    rw [dictInsertMany_cons]
    exact ih _ (nodup_dictKeys_insert m r.id r h)

theorem length_le_dictInsertMany (m : Snap) (l : List CourseRecord) :
    m.length ≤ (dictInsertMany m l).length := by
  induction l generalizing m with
  | nil => exact Nat.le_refl _
  | cons r l ih =>
    rw [dictInsertMany_cons]
    exact Nat.le_trans (length_le_dictInsert m r.id r) (ih _)

theorem keyed_dictInsert (m : Snap) (r : CourseRecord) (h : Keyed m) :
    Keyed (dictInsert m r.id r) := by
  induction m with
  | nil =>
    intro p hp
    simp [dictInsert] at hp
    rw [hp]
  | cons q rest ih =>
    intro p hp
    simp only [dictInsert] at hp
    by_cases hq : q.1 = r.id
    · rw [if_pos hq] at hp
      rcases List.mem_cons.mp hp with hp | hp
      · rw [hp]
      · exact h p (List.mem_cons_of_mem _ hp)
    · rw [if_neg hq] at hp
      rcases List.mem_cons.mp hp with hp | hp
      · exact hp ▸ h q (List.mem_cons_self _ _)
      · exact ih (fun x hx => h x (List.mem_cons_of_mem _ hx)) p hp

theorem keyed_dictInsertMany (m : Snap) (l : List CourseRecord) (h : Keyed m) :
    Keyed (dictInsertMany m l) := by
  induction l generalizing m with
  | nil => exact h
  | cons r l ih =>
    rw [dictInsertMany_cons]
    exact ih _ (keyed_dictInsert m r h)

theorem dictInsertMany_cons_of_ne (k : String) (v : CourseRecord) (m0 : Snap)
    (l : List CourseRecord) (h : ∀ r ∈ l, r.id ≠ k) :
    dictInsertMany ((k, v) :: m0) l = (k, v) :: dictInsertMany m0 l := by
  induction l generalizing m0 with
  | nil => rfl
  | cons r l ih =>
    rw [dictInsertMany_cons]
    have hk : ¬ k = r.id := fun hh => h r (List.mem_cons_self _ _) hh.symm
    have : dictInsert ((k, v) :: m0) r.id r = (k, v) :: dictInsert m0 r.id r := by
      simp [dictInsert, hk]
    rw [this, ih _ (fun x hx => h x (List.mem_cons_of_mem _ hx)), dictInsertMany_cons]

/-- Re-keying a well-formed snapshot by each row's id
(`{r["id"]: r for r in existing_map.values()}`, line 194 of the source)
reproduces the snapshot. -/
theorem rekey_eq (m : Snap) (hwf : SnapWF m) :
    dictInsertMany [] (m.map (fun p => p.2)) = m := by
  induction m with
  | nil => rfl
  | cons p rest ih =>
    obtain ⟨hnd, hkey⟩ := hwf
    rw [dictKeys_cons] at hnd
    have hnd1 := List.nodup_cons.mp hnd
    obtain ⟨k, rec⟩ := p
    have hid : rec.id = k := hkey (k, rec) (List.mem_cons_self _ _)
    simp only [List.map_cons]
    rw [dictInsertMany_cons]
    have h0 : dictInsert [] rec.id rec = [(k, rec)] := by simp [dictInsert, hid]
    rw [h0]
    have hne : ∀ r ∈ rest.map (fun p => p.2), r.id ≠ k := by
      intro r hr
      rcases List.mem_map.mp hr with ⟨q, hq, he⟩
      have : r.id = q.1 := he ▸ hkey q (List.mem_cons_of_mem _ hq)
      rw [this]
      intro hqk
      exact hnd1.1 (hqk ▸ List.mem_map.mpr ⟨q, hq, rfl⟩)
    rw [dictInsertMany_cons_of_ne k rec [] _ hne,
      ih ⟨hnd1.2, fun q hq => hkey q (List.mem_cons_of_mem _ hq)⟩]

/-! ### Lemmas about the normalization loop -/

theorem apiCourse1_eq (m : Snap) (now : String) (c : RawCourse) :
    apiCourse1 m now c =
      normalize_course c (.pint 1) (caSelect (dictGet m c.oid) now) now := rfl

theorem caSelect_none (now : String) : caSelect none now = now := rfl

theorem caSelect_some (p : CourseRecord) (now : String) :
    caSelect (some p) now = if p.is_active then p.changed_at else now := by
  cases hp : p.is_active <;> simp [caSelect, hp]

theorem normalize_course_ok_fields (c : RawCourse) (iv : PyVal) (ca now : String)
    (r : CourseRecord) (h : normalize_course c iv ca now = .ok r) :
    r.id = c.oid ∧ r.is_active = normalize_bool iv ∧
      r.changed_at = ca ∧ r.updated_at = now := by
  unfold normalize_course at h
  repeat' split at h
  all_goals first
    | exact Except.noConfusion h
    | (injection h with h; subst h; exact ⟨rfl, rfl, rfl, rfl⟩)

theorem normalize_course_isOk_congr (c : RawCourse) (iv iv' : PyVal)
    (ca ca' now now' : String) :
    (normalize_course c iv ca now).isOk = (normalize_course c iv' ca' now').isOk := by
  cases h1 : normalize_jalali_date c.start with
  | error e => simp [normalize_course, h1, Except.isOk]
  | ok sd =>
    cases h2 : normalize_jalali_date c.«end» with
    | error e => simp [normalize_course, h1, h2, Except.isOk]
    | ok ed =>
      cases h3 : intField c.capacity with
      | error e => simp [normalize_course, h1, h2, h3, Except.isOk]
      | ok cap =>
        cases h4 : intField c.time with
        | error e => simp [normalize_course, h1, h2, h3, h4, Except.isOk]
        | ok dur =>
          cases h5 : normalize_price c.minCost with
          | error e => simp [normalize_course, h1, h2, h3, h4, h5, Except.isOk]
          | ok minp =>
            cases h6 : normalize_price c.maxCost with
            | error e => simp [normalize_course, h1, h2, h3, h4, h5, h6, Except.isOk]
            | ok maxp =>
              simp only [normalize_course, h1, h2, h3, h4, h5, h6]
              rfl

theorem apiCoursesGo_ok_iff (m : Snap) (now : String) (l : List RawCourse)
    (api : List CourseRecord) :
    apiCoursesGo m now l = .ok api ↔
      ((∀ c ∈ l, (apiCourse1 m now c).isOk = true) ∧ api = l.map (apiOk m now)) := by
  induction l generalizing api with
  | nil =>
    simp only [apiCoursesGo, List.map_nil]
    constructor
    · intro h
      exact ⟨fun c hc => absurd hc (List.not_mem_nil c), (Except.ok.inj h).symm⟩
    · rintro ⟨-, rfl⟩; rfl
  | cons c l ih =>
    simp only [apiCoursesGo]
    cases h1 : apiCourse1 m now c with
    | error e =>
      constructor
      · intro h; exact Except.noConfusion h
      · rintro ⟨hall, -⟩
        have hc := hall c (List.mem_cons_self _ _)
        rw [h1] at hc
        exact absurd hc (by simp [Except.isOk, Except.toBool])
    | ok r =>
      cases h2 : apiCoursesGo m now l with
      | error e =>
        constructor
        · intro h; exact Except.noConfusion h
        · rintro ⟨hall, -⟩
          have hl := (ih (l.map (apiOk m now))).mpr
            ⟨fun c' hc' => hall c' (List.mem_cons_of_mem _ hc'), rfl⟩
          rw [h2] at hl
          exact Except.noConfusion hl
      | ok rs =>
        have hr : apiOk m now c = r := by unfold apiOk; rw [h1]
        have hl := (ih rs).mp h2
        constructor
        · intro h
          injection h with h
          subst h
          refine ⟨?_, ?_⟩
          · intro c' hc'
            rcases List.mem_cons.mp hc' with hc' | hc'
            · subst hc'; rw [h1]; rfl
            · exact hl.1 c' hc'
          · rw [List.map_cons, hr, hl.2]
        · rintro ⟨-, he⟩
          rw [he, List.map_cons, hr, hl.2]

theorem apiOk_fields (m : Snap) (now : String) (c : RawCourse)
    (h : (apiCourse1 m now c).isOk = true) :
    (apiOk m now c).id = c.oid ∧ (apiOk m now c).is_active = true ∧
      (apiOk m now c).updated_at = now ∧
      (apiOk m now c).changed_at = caSelect (dictGet m c.oid) now := by
  cases hr : apiCourse1 m now c with
  | error e => rw [hr] at h; exact absurd h (by simp [Except.isOk, Except.toBool])
  | ok r =>
    have hro : apiOk m now c = r := by unfold apiOk; rw [hr]
    rw [apiCourse1_eq] at hr
    obtain ⟨hid, hact, hca, hupd⟩ := normalize_course_ok_fields _ _ _ _ _ hr
    rw [hro]
    exact ⟨hid, by rw [hact]; rfl, hupd, hca⟩

theorem apiCourse1_congr (m m' : Snap) (now : String) (c : RawCourse)
    (h : caSelect (dictGet m c.oid) now = caSelect (dictGet m' c.oid) now) :
    apiCourse1 m now c = apiCourse1 m' now c := by
  rw [apiCourse1_eq, apiCourse1_eq, h]

/-- Inversion of a successful `sync` run into its pieces. -/
theorem sync_ok_inv (m : Snap) (raw : List RawCourse) (now : String) (r : SyncResult)
    (h : sync m raw now = .ok r) :
    (∀ c ∈ raw, (apiCourse1 m now c).isOk = true) ∧
    r.new = (raw.map (apiOk m now)).filter (fun c => (dictGet m c.id).isNone) ∧
    r.revived = (raw.map (apiOk m now)).filter (fun c =>
      ((m.filter (fun p => !p.2.is_active)).map (fun p => p.1)).contains c.id) ∧
    r.expired = (((m.filter (fun p => p.2.is_active)).map (fun p => p.1)).filter
      (fun cid => !(raw.map (fun c => c.oid)).contains cid)).filterMap (fun cid =>
        (dictGet m cid).map (fun row =>
          { row with is_active := false, changed_at := now, updated_at := now })) ∧
    r.final = dictInsertMany (dictInsertMany [] (m.map (fun p => p.2)))
      (raw.map (apiOk m now) ++ r.expired) := by
  unfold sync at h
  cases happ : apiCoursesGo m now raw with
  | error e => rw [happ] at h; exact Except.noConfusion h
  | ok api =>
    rw [happ] at h
    injection h with h
    obtain ⟨hall, hmap⟩ := (apiCoursesGo_ok_iff m now raw api).mp happ
    subst hmap
    subst h
    exact ⟨hall, rfl, rfl, rfl, rfl⟩

theorem mem_activeKeys (m : Snap) (a : String) :
    a ∈ (m.filter (fun p => p.2.is_active)).map (fun p => p.1) ↔
      ∃ v, (a, v) ∈ m ∧ v.is_active = true := by
  constructor
  · intro h
    rcases List.mem_map.mp h with ⟨p, hp, he⟩
    have hf := List.mem_filter.mp hp
    refine ⟨p.2, ?_, hf.2⟩
    rw [← he, Prod.mk.eta]
    exact hf.1
  · rintro ⟨v, hv, hact⟩
    exact List.mem_map.mpr ⟨(a, v), List.mem_filter.mpr ⟨hv, hact⟩, rfl⟩

theorem mem_inactiveKeys (m : Snap) (a : String) :
    a ∈ (m.filter (fun p => !p.2.is_active)).map (fun p => p.1) ↔
      ∃ v, (a, v) ∈ m ∧ v.is_active = false := by
  constructor
  · intro h
    rcases List.mem_map.mp h with ⟨p, hp, he⟩
    have hf := List.mem_filter.mp hp
    refine ⟨p.2, ?_, by simpa using hf.2⟩
    rw [← he, Prod.mk.eta]
    exact hf.1
  · rintro ⟨v, hv, hact⟩
    exact List.mem_map.mpr ⟨(a, v), List.mem_filter.mpr ⟨hv, by simp [hact]⟩, rfl⟩

theorem mem_dictKeys_of_mem (m : Snap) (p : String × CourseRecord) (h : p ∈ m) :
    p.1 ∈ dictKeys m :=
  List.mem_map.mpr ⟨p, h, rfl⟩

theorem apiCourse1_eq_ok (m : Snap) (now : String) (c : RawCourse)
    (h : (apiCourse1 m now c).isOk = true) :
    apiCourse1 m now c = .ok (apiOk m now c) := by
  cases hr : apiCourse1 m now c with
  | error e => rw [hr] at h; exact absurd h (by simp [Except.isOk, Except.toBool])
  | ok r => unfold apiOk; rw [hr]

theorem api_ids_eq (m : Snap) (now : String) (raw : List RawCourse)
    (hall : ∀ c ∈ raw, (apiCourse1 m now c).isOk = true) :
    (raw.map (apiOk m now)).map (fun r => r.id) = raw.map (fun c => c.oid) := by
  rw [List.map_map]
  exact List.map_congr_left (fun c hc => (apiOk_fields m now c (hall c hc)).1)

theorem lastIdMatch_append (l1 l2 : List CourseRecord) (k : String) :
    lastIdMatch (l1 ++ l2) k = (lastIdMatch l2 k).or (lastIdMatch l1 k) := by
  simp only [lastIdMatch, List.reverse_append, List.find?_append]

theorem lastIdMatch_eq_of_nodup (l : List CourseRecord) (k : String)
    (hnd : (l.map (fun r => r.id)).Nodup) (r : CourseRecord) (hr : r ∈ l)
    (hk : r.id = k) : lastIdMatch l k = some r := by
  induction l with
  | nil => cases hr
  | cons x xs ih =>
    rw [List.map_cons] at hnd
    have hnd1 := List.nodup_cons.mp hnd
    rw [lastIdMatch_cons]
    rcases List.mem_cons.mp hr with hr | hr
    · subst hr
      have hnone : lastIdMatch xs k = none := by
        rw [lastIdMatch_eq_none_iff]
        intro y hy he
        exact hnd1.1 ((he.trans hk.symm) ▸ List.mem_map.mpr ⟨y, hy, rfl⟩)
      rw [hnone, none_or, if_pos hk]
    · rw [ih hnd1.2 hr, some_or]

theorem find?_map_id_eq (m : Snap) (now : String) (l : List RawCourse) (X : String)
    (hall : ∀ c ∈ l, (apiCourse1 m now c).isOk = true) :
    (l.map (apiOk m now)).find? (fun r => r.id == X) =
      (l.find? (fun c => c.oid == X)).map (apiOk m now) := by
  induction l with
  | nil => rfl
  | cons c l ih =>
    rw [List.map_cons]
    have hid : (apiOk m now c).id = c.oid :=
      (apiOk_fields m now c (hall c (List.mem_cons_self _ _))).1
    by_cases hcx : c.oid = X
    · simp [List.find?, hid, hcx]
    · have h1 : ((apiOk m now c).id == X) = false := by
        rw [hid]; exact beq_eq_false_iff_ne.mpr hcx
      have h2 : (c.oid == X) = false := beq_eq_false_iff_ne.mpr hcx
      simp [List.find?, h1, h2,
        ih (fun x hx => hall x (List.mem_cons_of_mem _ hx))]

theorem lastIdMatch_map_apiOk (m : Snap) (now : String) (raw : List RawCourse)
    (X : String) (hall : ∀ c ∈ raw, (apiCourse1 m now c).isOk = true) :
    lastIdMatch (raw.map (apiOk m now)) X =
      (raw.reverse.find? (fun c => c.oid == X)).map (apiOk m now) := by
  unfold lastIdMatch
  rw [← List.map_reverse]
  exact find?_map_id_eq m now raw.reverse X
    (fun c hc => hall c (List.mem_reverse.mp hc))

/-- Every record produced by the expiry loop is inactive, and its id is one
of the looped-over keys. -/
theorem mem_expired_inv (m : Snap) (now : String) (ks : List String)
    (rec : CourseRecord)
    (h : rec ∈ ks.filterMap (fun cid => (dictGet m cid).map (fun row =>
      { row with is_active := false, changed_at := now, updated_at := now }))) :
    ∃ cid ∈ ks, ∃ row, dictGet m cid = some row ∧
      rec = { row with is_active := false, changed_at := now, updated_at := now } := by
  rcases List.mem_filterMap.mp h with ⟨cid, hcid, hmap⟩
  cases hget : dictGet m cid with
  | none => rw [hget] at hmap; exact Option.noConfusion hmap
  | some row =>
    rw [hget] at hmap
    exact ⟨cid, hcid, row, hget, (Option.some.inj hmap).symm⟩

/-- Under well-formedness, each expiry-loop record is keyed by the
looped-over key, so the produced ids are exactly `ks`. -/
theorem expired_map_id (m : Snap) (now : String) (ks : List String)
    (hwf : SnapWF m) (hks : ∀ cid ∈ ks, cid ∈ dictKeys m) :
    (ks.filterMap (fun cid => (dictGet m cid).map (fun row =>
      { row with is_active := false, changed_at := now, updated_at := now }))).map
        (fun rec => rec.id) = ks := by
  induction ks with
  | nil => rfl
  | cons cid ks ih =>
    have h1 : cid ∈ dictKeys m := hks cid (List.mem_cons_self _ _)
    cases hget : dictGet m cid with
    | none => exact absurd h1 ((dictGet_eq_none_iff m cid).mp hget)
    | some row =>
      have hid : row.id = cid := hwf.2 (cid, row) (dictGet_mem m cid row hget)
      simp only [List.filterMap_cons, hget, Option.map_some', List.map_cons]
      rw [ih (fun x hx => hks x (List.mem_cons_of_mem _ hx))]
      show row.id :: ks = cid :: ks
      rw [hid]

theorem contains_iff (l : List String) (a : String) : l.contains a = true ↔ a ∈ l :=
  List.elem_iff

theorem contains_false_iff (l : List String) (a : String) :
    l.contains a = false ↔ a ∉ l := by
  constructor
  · intro h hm
    rw [(contains_iff l a).mpr hm] at h
    exact Bool.noConfusion h
  · intro h
    cases hc : l.contains a
    · rfl
    · exact absurd ((contains_iff l a).mp hc) h

theorem bnot_eq_true_iff (b : Bool) : (!b) = true ↔ b = false := by
  cases b <;> simp

/-! ### Claim theorems -/

/-- C2: for a fresh record with identity `cid = c.oid`, the reconciler's
per-record step produces an active record whose `updated_at` is `now` and
whose `changed_at` is `now` exactly when `cid` is absent from the prior
snapshot or the prior record is inactive; otherwise `changed_at` is carried
forward unchanged from the prior record. -/
theorem sync_changed_at_transition (m : Snap) (now : String) (c : RawCourse)
    (rec : CourseRecord) (h : apiCourse1 m now c = .ok rec) :
    rec.is_active = true ∧ rec.updated_at = now ∧
    (dictGet m c.oid = none → rec.changed_at = now) ∧
    (∀ p, dictGet m c.oid = some p →
      (p.is_active = false → rec.changed_at = now) ∧
      (p.is_active = true → rec.changed_at = p.changed_at)) := by
  have hok : (apiCourse1 m now c).isOk = true := by rw [h]; rfl
  have hrec : apiOk m now c = rec := by unfold apiOk; rw [h]
  obtain ⟨hid, hact, hupd, hca⟩ := apiOk_fields m now c hok
  rw [hrec] at hact hupd hca
  refine ⟨hact, hupd, ?_, ?_⟩
  · intro hnone
    rw [hca, hnone, caSelect_none]
  · intro p hp
    rw [hca, hp, caSelect_some]
    constructor
    · intro hpa; rw [hpa]; simp
    · intro hpa; rw [hpa]; simp

/-- Witness for C2 at a concrete input: an id absent from the (empty) prior
snapshot comes out active with `changed_at = updated_at = now`. -/
theorem sync_changed_at_transition_witness :
    (apiOk [] "2025-06-01" rawA).is_active = true ∧
    (apiOk [] "2025-06-01" rawA).updated_at = "2025-06-01" ∧
    (apiOk [] "2025-06-01" rawA).changed_at = "2025-06-01" := by
  have h : apiCourse1 ([] : Snap) "2025-06-01" rawA =
      .ok (apiOk [] "2025-06-01" rawA) := rfl
  have hmain := sync_changed_at_transition [] "2025-06-01" rawA _ h
  exact ⟨hmain.1, hmain.2.1, hmain.2.2.1 rfl⟩

/-- C6: the `new` partition (ids absent from the prior snapshot) and the
`revived` partition (ids previously inactive in the prior snapshot) never
share an id. -/
theorem sync_new_revived_disjoint (m : Snap) (raw : List RawCourse) (now : String)
    (r : SyncResult) (h : sync m raw now = .ok r) (cid : String)
    (hnew : cid ∈ r.new.map (fun c => c.id)) :
    cid ∉ r.revived.map (fun c => c.id) := by
  obtain ⟨-, hnew_eq, hrev_eq, -, -⟩ := sync_ok_inv m raw now r h
  rw [hnew_eq] at hnew
  rw [hrev_eq]
  rcases List.mem_map.mp hnew with ⟨x, hx, hxe⟩
  have hxf := List.mem_filter.mp hx
  intro hrev
  rcases List.mem_map.mp hrev with ⟨y, hy, hye⟩
  have hyf := List.mem_filter.mp hy
  have hyc : y.id ∈ (m.filter (fun p => !p.2.is_active)).map (fun p => p.1) :=
    List.elem_iff.mp hyf.2
  rcases (mem_inactiveKeys m y.id).mp hyc with ⟨v, hv, -⟩
  have hkeys : y.id ∈ dictKeys m := mem_dictKeys_of_mem m (y.id, v) hv
  have hnone : dictGet m x.id = none := Option.isNone_iff_eq_none.mp hxf.2
  rw [hxe, ← hye] at hnone
  exact (dictGet_eq_none_iff m y.id).mp hnone hkeys

/-- Witness for C6 at a concrete input: `"A"` is new and `"B"` revived;
`"A"` is not among the revived ids. -/
theorem sync_new_revived_disjoint_witness :
    ("A" ∈ (syncOk snapInactiveB [rawA, rawB] "2025-06-01").new.map (fun c => c.id)) ∧
    "A" ∉ (syncOk snapInactiveB [rawA, rawB] "2025-06-01").revived.map (fun c => c.id) := by
  have h : sync snapInactiveB [rawA, rawB] "2025-06-01" =
      .ok (syncOk snapInactiveB [rawA, rawB] "2025-06-01") := rfl
  have hnew : "A" ∈ (syncOk snapInactiveB [rawA, rawB] "2025-06-01").new.map
      (fun c => c.id) := by decide
  exact ⟨hnew,
    sync_new_revived_disjoint snapInactiveB [rawA, rawB] "2025-06-01" _ h "A" hnew⟩

/-- C7 (refuted, code bug): normalization does raise on malformed input.
An out-of-range Jalali day (`"35 مهر 1402"`) makes `jdatetime.date` raise
`ValueError` inside `normalize_jalali_date`, and a non-numeric capacity makes
`int()` raise inside `normalize_course`; in both cases the exception escapes
`normalize_course` and aborts the whole `sync` batch instead of the field
becoming null. -/
theorem normalization_raises_on_malformed :
    (normalize_jalali_date (some "35 مهر 1402")).isOk = false ∧
    (normalize_course rawBadDate (.pint 1) "2025-06-01" "2025-06-01").isOk = false ∧
    (normalize_course rawBadCapacity (.pint 1) "2025-06-01" "2025-06-01").isOk = false ∧
    (sync [] [rawBadCapacity] "2025-06-01").isOk = false := by decide

/-- C8 counterexample: in `src/update_courses.py`, `fetch_page` has no
exception handler, so a transport error on the very first page propagates
out of the whole `fetch_all` loop instead of being recovered locally. -/
theorem fetch_error_propagates_counterexample :
    fetch_all_uc (fun _ => .error ()) 5 0 0 ([] : List Nat) = .error () := rfl

/-- C8 amended: in the `src/update_courses_filter.py` variant, a failing
page fetch is recovered locally: the page is treated as empty, the
consecutive-empty counter increments, the loop continues below the
2-consecutive-empty-pages threshold and terminates once it is reached; no
error can escape (witness the `Option` return type of the loop). -/
theorem fetch_filter_recovers {α : Type} (net : Net α) (fuel skip empty : Nat)
    (acc : List α) (h : net skip = .error ()) :
    fetch_page_filter net skip = [] ∧
    fetch_all_filter net (fuel + 1) skip empty acc =
      (if MAX_EMPTY_PAGES ≤ empty + 1 then some acc
       else fetch_all_filter net fuel (skip + PAGE_SIZE) (empty + 1) acc) := by
  have hp : fetch_page_filter net skip = [] := by
    unfold fetch_page_filter
    rw [h]
  refine ⟨hp, ?_⟩
  simp only [fetch_all_filter, hp]
  simp

/-- Witness for C8's amended statement at a concrete input: a network that
always fails is treated as a run of empty pages and the loop returns its
accumulator once the threshold is hit. -/
theorem fetch_filter_recovers_witness :
    fetch_page_filter (fun _ => (.error () : Except Unit (List Nat))) 0 = [] ∧
    fetch_all_filter (fun _ => (.error () : Except Unit (List Nat))) 3 0 0 [] =
      (if MAX_EMPTY_PAGES ≤ 0 + 1 then some []
       else fetch_all_filter (fun _ => (.error () : Except Unit (List Nat))) 2
        (0 + PAGE_SIZE) (0 + 1) []) :=
  fetch_filter_recovers (fun _ => .error ()) 2 0 0 [] rfl

/-- C9 counterexample: the numeric source value `0` is falsy in Python, so
`normalize_price` returns `None` for it, not the integer `0` the claim
requires. -/
theorem normalize_price_zero_counterexample :
    normalize_price (.pint 0) = .ok none ∧
    normalize_price (.pint 0) ≠ .ok (some 0) :=
  ⟨rfl, fun h => Option.noConfusion (Except.ok.inj h)⟩

/-- C9 amended: for a truthy, non-NA source value let `s` be its
digit-translated, comma-stripped string: if `s` fails `str.isdigit` the
result is null; if `s` passes, `int()` is applied, returning the
(nonnegative) decimal value when every character of `s` is a decimal (Nd)
digit and raising `ValueError` otherwise (digit-class characters such as
`²`).  Falsy or NA sources — including the numeric value `0`, which is
falsy in Python — yield null.  Concretely `"۱۲,۰۰۰"` yields `12000`, the
untranslated Arabic-Indic `"٥"` yields `5`, `"نامشخص"` and `0` yield null,
and `"²"` raises. -/
theorem normalize_price_characterization :
    (∀ v : PyVal, pyTruthy v = false ∨ pyIsNa v = true →
      normalize_price v = .ok none) ∧
    (∀ v : PyVal, pyTruthy v = true → pyIsNa v = false →
      pyIsDigit (priceClean v) = false → normalize_price v = .ok none) ∧
    (∀ v : PyVal, pyTruthy v = true → pyIsNa v = false →
      pyIsDigit (priceClean v) = true →
      normalize_price v =
        (if (priceClean v).data.all isNdDigit then
          .ok (some (ndDigitsToNat (priceClean v).data : Int))
        else .error "ValueError: invalid literal for int()") ∧
      0 ≤ (ndDigitsToNat (priceClean v).data : Int)) ∧
    normalize_price (.pstr "۱۲,۰۰۰") = .ok (some 12000) ∧
    normalize_price (.pstr "٥") = .ok (some 5) ∧
    normalize_price (.pstr "نامشخص") = .ok none ∧
    (normalize_price (.pstr "²")).isOk = false ∧
    normalize_price (.pint 0) = .ok none := by
  refine ⟨?_, ?_, ?_, rfl, rfl, rfl, rfl, rfl⟩
  · intro v hv
    rcases hv with hv | hv
    · simp [normalize_price, hv]
    · simp [normalize_price, hv]
  · intro v ht hn hd
    unfold priceClean at hd
    simp [normalize_price, ht, hn, hd]
  · intro v ht hn hd
    unfold priceClean at hd
    constructor
    · unfold priceClean
      simp [normalize_price, ht, hn, hd]
    · exact Int.natCast_nonneg _

/-- Witness for C9's amended statement at a concrete input: the Persian
price string `"۱۲,۰۰۰"` is truthy, non-NA and `isdigit` after cleaning, so
`int()` applies and yields its nonnegative decimal value. -/
theorem normalize_price_characterization_witness :
    normalize_price (.pstr "۱۲,۰۰۰") =
      (if (priceClean (.pstr "۱۲,۰۰۰")).data.all isNdDigit then
        .ok (some (ndDigitsToNat (priceClean (.pstr "۱۲,۰۰۰")).data : Int))
      else .error "ValueError: invalid literal for int()") ∧
    0 ≤ (ndDigitsToNat (priceClean (.pstr "۱۲,۰۰۰")).data : Int) :=
  normalize_price_characterization.2.2.1 (.pstr "۱۲,۰۰۰") rfl rfl (by decide)

/-- C3: the expired partition consists of exactly the ids that are active in
the prior snapshot but absent from the fresh ids; each expired record equals
the prior record with only `is_active` forced false and
`changed_at`/`updated_at` set to `now` (all other fields frozen). -/
theorem sync_expired_spec (m : Snap) (raw : List RawCourse) (now : String)
    (r : SyncResult) (hwf : SnapWF m) (h : sync m raw now = .ok r) :
    (∀ rec ∈ r.expired, ∃ cid prev, dictGet m cid = some prev ∧
      prev.is_active = true ∧ cid ∉ raw.map (fun c => c.oid) ∧
      rec = { prev with is_active := false, changed_at := now, updated_at := now }) ∧
    (∀ cid, cid ∈ r.expired.map (fun rec => rec.id) ↔
      ∃ prev, dictGet m cid = some prev ∧ prev.is_active = true ∧
        cid ∉ raw.map (fun c => c.oid)) := by
  obtain ⟨-, -, -, hexp, -⟩ := sync_ok_inv m raw now r h
  constructor
  · intro rec hrec
    rw [hexp] at hrec
    obtain ⟨cid, hcid, row, hget, hrec_eq⟩ := mem_expired_inv m now _ rec hrec
    have hcidf := List.mem_filter.mp hcid
    rcases (mem_activeKeys m cid).mp hcidf.1 with ⟨v, hv, hact⟩
    have hgetv : dictGet m cid = some v := dictGet_of_mem m cid v hwf.1 hv
    have hrv : row = v := Option.some.inj (hget.symm.trans hgetv)
    subst hrv
    refine ⟨cid, row, hget, hact, ?_, hrec_eq⟩
    exact (contains_false_iff _ _).mp ((bnot_eq_true_iff _).mp hcidf.2)
  · intro cid
    constructor
    · intro hmem
      rcases List.mem_map.mp hmem with ⟨rec, hrec, hrecid⟩
      rw [hexp] at hrec
      obtain ⟨cid', hcid', row, hget, hrec_eq⟩ := mem_expired_inv m now _ rec hrec
      have hrowid : row.id = cid' := hwf.2 (cid', row) (dictGet_mem m cid' row hget)
      have hcc : cid = cid' := by
        rw [← hrecid, hrec_eq]
        exact hrowid
      subst hcc
      have hcidf := List.mem_filter.mp hcid'
      rcases (mem_activeKeys m cid).mp hcidf.1 with ⟨v, hv, hact⟩
      have hgetv : dictGet m cid = some v := dictGet_of_mem m cid v hwf.1 hv
      have hrv : row = v := Option.some.inj (hget.symm.trans hgetv)
      refine ⟨row, hget, by rw [hrv]; exact hact, ?_⟩
      exact (contains_false_iff _ _).mp ((bnot_eq_true_iff _).mp hcidf.2)
    · rintro ⟨prev, hget, hact, hnotin⟩
      have hprev_mem : (cid, prev) ∈ m := dictGet_mem m cid prev hget
      have h1 : cid ∈ (m.filter (fun p => p.2.is_active)).map (fun p => p.1) :=
        (mem_activeKeys m cid).mpr ⟨prev, hprev_mem, hact⟩
      have h2 : (!(raw.map (fun c => c.oid)).contains cid) = true :=
        (bnot_eq_true_iff _).mpr ((contains_false_iff _ _).mpr hnotin)
      rw [hexp]
      apply List.mem_map.mpr
      refine ⟨{ prev with is_active := false, changed_at := now, updated_at := now },
        List.mem_filterMap.mpr ⟨cid, List.mem_filter.mpr ⟨h1, h2⟩, by rw [hget]; rfl⟩, ?_⟩
      exact hwf.2 (cid, prev) hprev_mem

/-- Witness for C3 at a concrete input: with `"A"` active in the prior
snapshot and only `"B"` fetched, `"A"` is among the expired ids. -/
theorem sync_expired_spec_witness :
    SnapWF snapActiveA ∧
    "A" ∈ (syncOk snapActiveA [rawB] "2025-06-01").expired.map (fun rec => rec.id) := by
  have hwf : SnapWF snapActiveA := by decide
  have h : sync snapActiveA [rawB] "2025-06-01" =
      .ok (syncOk snapActiveA [rawB] "2025-06-01") := rfl
  exact ⟨hwf, ((sync_expired_spec snapActiveA [rawB] "2025-06-01" _ hwf h).2 "A").mpr
    ⟨baseRec, rfl, rfl, by decide⟩⟩

/-- C4 counterexample: a record that is already inactive and absent from
the API response is carried over completely unchanged — its `changed_at`
and `updated_at` are NOT set to `now` as the claim requires. -/
theorem absent_inactive_untouched_counterexample :
    sync snapInactiveA [] "2025-06-01" =
      .ok { final := snapInactiveA, new := [], expired := [], revived := [] } ∧
    dictGet snapInactiveA "A" = some recInactiveA ∧
    recInactiveA.updated_at ≠ "2025-06-01" ∧
    recInactiveA.changed_at ≠ "2025-06-01" :=
  ⟨rfl, rfl, by decide, by decide⟩

/-- C4 amended: a prior record absent from the fresh ids is never deleted:
if it was active it is kept with only `is_active` forced false and
`changed_at`/`updated_at` set to `now`; if it was already inactive it is
carried over completely unchanged. -/
theorem sync_absent_records (m : Snap) (raw : List RawCourse) (now : String)
    (r : SyncResult) (hwf : SnapWF m) (h : sync m raw now = .ok r)
    (cid : String) (rec : CourseRecord) (hget : dictGet m cid = some rec)
    (habs : cid ∉ raw.map (fun c => c.oid)) :
    dictGet r.final cid =
      some (if rec.is_active = true then
          { rec with is_active := false, changed_at := now, updated_at := now }
        else rec) := by
  obtain ⟨hall, -, -, hexp, hfin⟩ := sync_ok_inv m raw now r h
  rw [rekey_eq m hwf] at hfin
  rw [hfin, dictGet_insertMany, lastIdMatch_append]
  have hapi_none : lastIdMatch (raw.map (apiOk m now)) cid = none := by
    rw [lastIdMatch_eq_none_iff]
    intro y hy he
    rcases List.mem_map.mp hy with ⟨c, hc, hye⟩
    have hid : y.id = c.oid := by
      rw [← hye]
      exact (apiOk_fields m now c (hall c hc)).1
    exact habs (by rw [← he, hid]; exact List.mem_map.mpr ⟨c, hc, rfl⟩)
  have hks_sub : ∀ x ∈ ((m.filter (fun p => p.2.is_active)).map (fun p => p.1)).filter
      (fun cid => !(raw.map (fun c => c.oid)).contains cid), x ∈ dictKeys m := by
    intro x hx
    rcases (mem_activeKeys m x).mp (List.mem_filter.mp hx).1 with ⟨v, hv, -⟩
    exact mem_dictKeys_of_mem m (x, v) hv
  have hidmap : r.expired.map (fun rec => rec.id) =
      ((m.filter (fun p => p.2.is_active)).map (fun p => p.1)).filter
        (fun cid => !(raw.map (fun c => c.oid)).contains cid) := by
    rw [hexp]
    exact expired_map_id m now _ hwf hks_sub
  have hrecid : rec.id = cid := hwf.2 (cid, rec) (dictGet_mem m cid rec hget)
  by_cases hact : rec.is_active = true
  · rw [if_pos hact]
    have hKS : cid ∈ ((m.filter (fun p => p.2.is_active)).map (fun p => p.1)).filter
        (fun cid => !(raw.map (fun c => c.oid)).contains cid) :=
      List.mem_filter.mpr
        ⟨(mem_activeKeys m cid).mpr ⟨rec, dictGet_mem m cid rec hget, hact⟩,
          (bnot_eq_true_iff _).mpr ((contains_false_iff _ _).mpr habs)⟩
    have hnd : (r.expired.map (fun rec => rec.id)).Nodup := by
      rw [hidmap]
      have h1 : ((m.filter (fun p => p.2.is_active)).map
          (fun p => p.1)).Sublist (dictKeys m) :=
        List.Sublist.map _ (List.filter_sublist m)
      exact List.Nodup.filter _ (h1.nodup hwf.1)
    have hmem : ({ rec with is_active := false, changed_at := now, updated_at := now }) ∈ r.expired := by
      rw [hexp]
      exact List.mem_filterMap.mpr ⟨cid, hKS, by rw [hget]; rfl⟩
    have hlast : lastIdMatch r.expired cid = some { rec with is_active := false, changed_at := now, updated_at := now } :=
      lastIdMatch_eq_of_nodup _ _ hnd _ hmem hrecid
    rw [hlast, hapi_none, some_or, some_or]
  · rw [if_neg hact]
    have hnotKS : cid ∉ ((m.filter (fun p => p.2.is_active)).map (fun p => p.1)).filter
        (fun cid => !(raw.map (fun c => c.oid)).contains cid) := by
      intro hKS
      rcases (mem_activeKeys m cid).mp (List.mem_filter.mp hKS).1 with ⟨v, hv, hvact⟩
      have hgv : dictGet m cid = some v := dictGet_of_mem m cid v hwf.1 hv
      have hv_eq : v = rec := Option.some.inj (hgv.symm.trans hget)
      exact hact (hv_eq ▸ hvact)
    have hexp_none : lastIdMatch r.expired cid = none := by
      rw [lastIdMatch_eq_none_iff]
      intro y hy he
      have hyid : y.id ∈ r.expired.map (fun rec => rec.id) :=
        List.mem_map.mpr ⟨y, hy, rfl⟩
      rw [hidmap] at hyid
      exact hnotKS (he ▸ hyid)
    rw [hexp_none, hapi_none, none_or, none_or, hget]

/-- Witness for C4's amended statement at a concrete input: the active
record `"A"` absent from an empty fetch comes out expired with both
timestamps set to `now`. -/
theorem sync_absent_records_witness :
    SnapWF snapActiveA ∧
    dictGet (syncOk snapActiveA [] "2025-06-01").final "A" =
      some (if baseRec.is_active = true then { baseRec with is_active := false, changed_at := "2025-06-01", updated_at := "2025-06-01" } else baseRec) := by
  have hwf : SnapWF snapActiveA := by decide
  have h : sync snapActiveA [] "2025-06-01" =
      .ok (syncOk snapActiveA [] "2025-06-01") := rfl
  exact ⟨hwf, sync_absent_records snapActiveA [] "2025-06-01" _ hwf h "A" baseRec rfl
    (by decide)⟩

/-- C5: the merged snapshot contains every prior id, has exactly one entry
per id, and its size is at least the prior snapshot's size — ids are never
deleted. -/
theorem sync_conservation (m : Snap) (raw : List RawCourse) (now : String)
    (r : SyncResult) (hwf : SnapWF m) (h : sync m raw now = .ok r) :
    (∀ cid ∈ dictKeys m, cid ∈ dictKeys r.final) ∧
    (dictKeys r.final).Nodup ∧ m.length ≤ r.final.length := by
  obtain ⟨-, -, -, -, hfin⟩ := sync_ok_inv m raw now r h
  rw [rekey_eq m hwf] at hfin
  rw [hfin]
  exact ⟨fun cid hc => (mem_dictKeys_insertMany m _ cid).mpr (Or.inl hc),
    nodup_dictKeys_insertMany m _ hwf.1, length_le_dictInsertMany m _⟩

/-- Witness for C5 at a concrete input: after fetching only `"B"` over a
snapshot holding `"A"`, the old id survives, keys stay unique and the
snapshot did not shrink. -/
theorem sync_conservation_witness :
    SnapWF snapActiveA ∧
    "A" ∈ dictKeys (syncOk snapActiveA [rawB] "2025-06-01").final ∧
    (dictKeys (syncOk snapActiveA [rawB] "2025-06-01").final).Nodup ∧
    snapActiveA.length ≤ (syncOk snapActiveA [rawB] "2025-06-01").final.length := by
  have hwf : SnapWF snapActiveA := by decide
  have h : sync snapActiveA [rawB] "2025-06-01" =
      .ok (syncOk snapActiveA [rawB] "2025-06-01") := rfl
  have hmain := sync_conservation snapActiveA [rawB] "2025-06-01" _ hwf h
  exact ⟨hwf, hmain.1 "A" (by decide), hmain.2.1, hmain.2.2⟩

theorem count_filter_map_id (api : List CourseRecord) (p : CourseRecord → Bool)
    (X : String) (pX : Bool) (hp : ∀ c ∈ api, c.id = X → p c = pX) :
    ((api.filter p).map (fun c => c.id)).count X =
      if pX = true then (api.map (fun c => c.id)).count X else 0 := by
  induction api with
  | nil => cases pX <;> simp
  | cons c api ih =>
    have ih' := ih (fun x hx hxX => hp x (List.mem_cons_of_mem _ hx) hxX)
    by_cases hcx : c.id = X
    · have hpc : p c = pX := hp c (List.mem_cons_self _ _) hcx
      cases hpX : pX
      · rw [hpX] at hpc ih'
        rw [List.filter_cons, hpc]
        simpa using ih'
      · rw [hpX] at hpc ih'
        rw [List.filter_cons, hpc]
        simp only [if_true, List.map_cons, List.count_cons]
        rw [if_pos rfl] at ih'
        rw [ih']
    · cases hpc : p c
      · rw [List.filter_cons, hpc]
        simp only [Bool.false_eq_true, if_false]
        rw [ih']
        cases hpX : pX
        · simp
        · simp only [if_pos rfl, List.map_cons, List.count_cons]
          have : (c.id == X) = false := beq_eq_false_iff_ne.mpr hcx
          simp [this]
      · rw [List.filter_cons, hpc]
        simp only [if_true, List.map_cons, List.count_cons]
        rw [ih']
        have hne : (c.id == X) = false := beq_eq_false_iff_ne.mpr hcx
        cases hpX : pX
        · simp [hne]
        · simp only [if_pos rfl, List.map_cons, List.count_cons]
          simp [hne]

/-- C10: a duplicated identity in the fresh sequence still yields exactly one
snapshot entry — the normalization of the id's last occurrence — while `new`
and `revived` count that id once per occurrence (no deduplication). -/
theorem sync_duplicate_ids (m : Snap) (raw : List RawCourse) (now : String)
    (r : SyncResult) (hwf : SnapWF m) (h : sync m raw now = .ok r) (X : String) :
    ((r.new.map (fun c => c.id)).count X =
      (dictGet m X).elim ((raw.map (fun c => c.oid)).count X) (fun _ => 0)) ∧
    ((r.revived.map (fun c => c.id)).count X =
      (dictGet m X).elim 0 (fun p => if p.is_active = true then 0
        else (raw.map (fun c => c.oid)).count X)) ∧
    (∀ cLast, raw.reverse.find? (fun c => c.oid == X) = some cLast →
      ∃ rec, apiCourse1 m now cLast = .ok rec ∧ dictGet r.final X = some rec) := by
  obtain ⟨hall, hnew, hrev, hexp, hfin⟩ := sync_ok_inv m raw now r h
  rw [rekey_eq m hwf] at hfin
  refine ⟨?_, ?_, ?_⟩
  · rw [hnew, count_filter_map_id _ _ X ((dictGet m X).isNone)
      (fun c _ hcx => by rw [hcx]), api_ids_eq m now raw hall]
    cases hget : dictGet m X
    · simp [Option.elim, Option.isNone]
    · simp [Option.elim, Option.isNone]
  · rw [hrev, count_filter_map_id _ _ X
      (((m.filter (fun p => !p.2.is_active)).map (fun p => p.1)).contains X)
      (fun c _ hcx => by rw [hcx]), api_ids_eq m now raw hall]
    cases hget : dictGet m X with
    | none =>
      have hc : ((m.filter (fun p => !p.2.is_active)).map (fun p => p.1)).contains X
          = false := by
        rw [contains_false_iff]
        intro hmem
        rcases (mem_inactiveKeys m X).mp hmem with ⟨v, hv, -⟩
        exact (dictGet_eq_none_iff m X).mp hget (mem_dictKeys_of_mem m (X, v) hv)
      rw [hc, if_neg (by decide)]
      rfl
    | some p =>
      cases hpact : p.is_active
      · have hc : ((m.filter (fun p => !p.2.is_active)).map (fun p => p.1)).contains X
            = true :=
          (contains_iff _ _).mpr
            ((mem_inactiveKeys m X).mpr ⟨p, dictGet_mem m X p hget, hpact⟩)
        rw [hc, if_pos rfl]
        simp [Option.elim, hpact]
      · have hc : ((m.filter (fun p => !p.2.is_active)).map (fun p => p.1)).contains X
            = false := by
          rw [contains_false_iff]
          intro hmem
          rcases (mem_inactiveKeys m X).mp hmem with ⟨v, hv, hvina⟩
          have hgv : dictGet m X = some v := dictGet_of_mem m X v hwf.1 hv
          have : v = p := Option.some.inj (hgv.symm.trans hget)
          rw [this, hpact] at hvina
          exact Bool.noConfusion hvina
        rw [hc, if_neg (by decide)]
        simp [Option.elim, hpact]
  · intro cLast hfind
    have hcL_mem : cLast ∈ raw := List.mem_reverse.mp (List.mem_of_find?_eq_some hfind)
    have hpred := List.find?_some hfind
    have hpredb : (cLast.oid == X) = true := hpred
    have hcLoid : cLast.oid = X := beq_iff_eq.mp hpredb
    refine ⟨apiOk m now cLast, apiCourse1_eq_ok m now cLast (hall cLast hcL_mem), ?_⟩
    rw [hfin, dictGet_insertMany, lastIdMatch_append]
    have hks_sub : ∀ x ∈ ((m.filter (fun p => p.2.is_active)).map (fun p => p.1)).filter
        (fun cid => !(raw.map (fun c => c.oid)).contains cid), x ∈ dictKeys m := by
      intro x hx
      rcases (mem_activeKeys m x).mp (List.mem_filter.mp hx).1 with ⟨v, hv, -⟩
      exact mem_dictKeys_of_mem m (x, v) hv
    have hidmap : r.expired.map (fun rec => rec.id) =
        ((m.filter (fun p => p.2.is_active)).map (fun p => p.1)).filter
          (fun cid => !(raw.map (fun c => c.oid)).contains cid) := by
      rw [hexp]
      exact expired_map_id m now _ hwf hks_sub
    have hexp_none : lastIdMatch r.expired X = none := by
      rw [lastIdMatch_eq_none_iff]
      intro y hy he
      have hyid : y.id ∈ r.expired.map (fun rec => rec.id) :=
        List.mem_map.mpr ⟨y, hy, rfl⟩
      rw [hidmap] at hyid
      have hnotin := (contains_false_iff _ _).mp
        ((bnot_eq_true_iff _).mp (List.mem_filter.mp hyid).2)
      exact hnotin (by
        rw [he, ← hcLoid]
        exact List.mem_map.mpr ⟨cLast, hcL_mem, rfl⟩)
    rw [hexp_none, none_or, lastIdMatch_map_apiOk m now raw X hall, hfind,
      Option.map_some', some_or]

/-- Witness for C10 at a concrete input: the identity `"A"` fetched twice is
counted twice in `new`, and the snapshot keeps the last occurrence. -/
theorem sync_duplicate_ids_witness :
    SnapWF ([] : Snap) ∧
    ((syncOk [] [rawA, rawA2] "2025-06-01").new.map (fun c => c.id)).count "A" =
      (dictGet ([] : Snap) "A").elim
        (([rawA, rawA2].map (fun c => c.oid)).count "A") (fun _ => 0) ∧
    (∃ rec, apiCourse1 [] "2025-06-01" rawA2 = .ok rec ∧
      dictGet (syncOk [] [rawA, rawA2] "2025-06-01").final "A" = some rec) := by
  have hwf : SnapWF ([] : Snap) := by decide
  have h : sync [] [rawA, rawA2] "2025-06-01" =
      .ok (syncOk [] [rawA, rawA2] "2025-06-01") := rfl
  have hmain := sync_duplicate_ids [] [rawA, rawA2] "2025-06-01" _ hwf h "A"
  exact ⟨hwf, hmain.1, hmain.2.2 rawA2 rfl⟩

/-- C1: reconciliation is idempotent: running `sync` again on the snapshot
it just produced, with the same fresh records and the same `now`, returns
that snapshot unchanged, and the second run's `new`/`expired`/`revived`
partitions are all empty. -/
theorem sync_idempotent (m : Snap) (raw : List RawCourse) (now : String)
    (hwf : SnapWF m) (r1 : SyncResult) (h1 : sync m raw now = .ok r1) :
    sync r1.final raw now =
      .ok { final := r1.final, new := [], expired := [], revived := [] } := by
  obtain ⟨hall, hnew, hrev, hexp, hfin⟩ := sync_ok_inv m raw now r1 h1
  rw [rekey_eq m hwf] at hfin
  have hwfF : SnapWF r1.final := by
    rw [hfin]
    exact ⟨nodup_dictKeys_insertMany m _ hwf.1, keyed_dictInsertMany m _ hwf.2⟩
  have hks_sub : ∀ x ∈ ((m.filter (fun p => p.2.is_active)).map (fun p => p.1)).filter
      (fun cid => !(raw.map (fun c => c.oid)).contains cid), x ∈ dictKeys m := by
    intro x hx
    rcases (mem_activeKeys m x).mp (List.mem_filter.mp hx).1 with ⟨v, hv, -⟩
    exact mem_dictKeys_of_mem m (x, v) hv
  have hidmap : r1.expired.map (fun rec => rec.id) =
      ((m.filter (fun p => p.2.is_active)).map (fun p => p.1)).filter
        (fun cid => !(raw.map (fun c => c.oid)).contains cid) := by
    rw [hexp]
    exact expired_map_id m now _ hwf hks_sub
  have hexp_inactive : ∀ y ∈ r1.expired, y.is_active = false := by
    intro y hy
    rw [hexp] at hy
    obtain ⟨cid, -, row, -, hrec_eq⟩ := mem_expired_inv m now _ y hy
    rw [hrec_eq]
  have hexp_none : ∀ k ∈ raw.map (fun c => c.oid),
      lastIdMatch r1.expired k = none := by
    intro k hk
    rw [lastIdMatch_eq_none_iff]
    intro y hy he
    have hyid : y.id ∈ r1.expired.map (fun rec => rec.id) :=
      List.mem_map.mpr ⟨y, hy, rfl⟩
    rw [hidmap] at hyid
    exact ((contains_false_iff _ _).mp ((bnot_eq_true_iff _).mp
      (List.mem_filter.mp hyid).2)) (he ▸ hk)
  have hGetVal : ∀ k ∈ raw.map (fun c => c.oid),
      dictGet r1.final k = lastIdMatch (raw.map (apiOk m now)) k := by
    intro k hk
    rw [hfin, dictGet_insertMany, lastIdMatch_append, hexp_none k hk, none_or]
    cases hl : lastIdMatch (raw.map (apiOk m now)) k with
    | some x => rw [some_or]
    | none =>
      exfalso
      rcases List.mem_map.mp hk with ⟨c0, hc0, hoid⟩
      have hx : apiOk m now c0 ∈ raw.map (apiOk m now) :=
        List.mem_map.mpr ⟨c0, hc0, rfl⟩
      have hid : (apiOk m now c0).id = c0.oid := (apiOk_fields m now c0 (hall c0 hc0)).1
      exact (lastIdMatch_eq_none_iff _ _).mp hl _ hx (by rw [hid, hoid])
  have hGetApi : ∀ c ∈ raw, ∃ rec, dictGet r1.final c.oid = some rec ∧
      rec.is_active = true ∧ rec.changed_at = caSelect (dictGet m c.oid) now := by
    intro c hc
    have hk : c.oid ∈ raw.map (fun c => c.oid) := List.mem_map.mpr ⟨c, hc, rfl⟩
    rw [hGetVal c.oid hk, lastIdMatch_map_apiOk m now raw c.oid hall]
    cases hfind : raw.reverse.find? (fun x => x.oid == c.oid) with
    | none =>
      exfalso
      have hsome : (raw.reverse.find? (fun x => x.oid == c.oid)).isSome := by
        rw [List.find?_isSome]
        exact ⟨c, List.mem_reverse.mpr hc, by simp⟩
      rw [hfind] at hsome
      simp at hsome
    | some cL =>
      have hcL_mem : cL ∈ raw := List.mem_reverse.mp (List.mem_of_find?_eq_some hfind)
      have hpred := List.find?_some hfind
      have hpredb : (cL.oid == c.oid) = true := hpred
      have hcLoid : cL.oid = c.oid := beq_iff_eq.mp hpredb
      obtain ⟨-, hact, -, hca⟩ := apiOk_fields m now cL (hall cL hcL_mem)
      exact ⟨apiOk m now cL, by rw [Option.map_some'], hact, by rw [hca, hcLoid]⟩
  have hRun2 : ∀ c ∈ raw, apiCourse1 r1.final now c = apiCourse1 m now c := by
    intro c hc
    obtain ⟨rec, hgr, hract, hrca⟩ := hGetApi c hc
    apply apiCourse1_congr
    rw [hgr, caSelect_some, if_pos hract, hrca]
  have hApiOk2 : ∀ c ∈ raw, apiOk r1.final now c = apiOk m now c := by
    intro c hc
    unfold apiOk
    rw [hRun2 c hc]
  have hall2 : ∀ c ∈ raw, (apiCourse1 r1.final now c).isOk = true := by
    intro c hc
    rw [hRun2 c hc]
    exact hall c hc
  have happ2 : apiCoursesGo r1.final now raw = .ok (raw.map (apiOk m now)) :=
    (apiCoursesGo_ok_iff r1.final now raw _).mpr
      ⟨hall2, (List.map_congr_left hApiOk2).symm⟩
  have hnew2 : (raw.map (apiOk m now)).filter
      (fun c => (dictGet r1.final c.id).isNone) = [] := by
    rw [List.filter_eq_nil_iff]
    intro c hcmem
    rcases List.mem_map.mp hcmem with ⟨c0, hc0, hce⟩
    obtain ⟨rec, hgr, -, -⟩ := hGetApi c0 hc0
    have hid : c.id = c0.oid := by
      rw [← hce]
      exact (apiOk_fields m now c0 (hall c0 hc0)).1
    rw [hid, hgr]
    simp
  have hrev2 : (raw.map (apiOk m now)).filter (fun c =>
      ((r1.final.filter (fun p => !p.2.is_active)).map (fun p => p.1)).contains c.id)
      = [] := by
    rw [List.filter_eq_nil_iff]
    intro c hcmem
    rcases List.mem_map.mp hcmem with ⟨c0, hc0, hce⟩
    obtain ⟨rec, hgr, hract, -⟩ := hGetApi c0 hc0
    have hid : c.id = c0.oid := by
      rw [← hce]
      exact (apiOk_fields m now c0 (hall c0 hc0)).1
    intro hcont
    rcases (mem_inactiveKeys r1.final c.id).mp ((contains_iff _ _).mp hcont) with
      ⟨v, hv, hvina⟩
    have hgv : dictGet r1.final c.id = some v := dictGet_of_mem _ _ _ hwfF.1 hv
    rw [hid, hgr] at hgv
    have hrv : rec = v := Option.some.inj hgv
    rw [← hrv, hract] at hvina
    exact Bool.noConfusion hvina
  have hKS2 : ((r1.final.filter (fun p => p.2.is_active)).map (fun p => p.1)).filter
      (fun cid => !(raw.map (fun c => c.oid)).contains cid) = [] := by
    rw [List.filter_eq_nil_iff]
    intro k hk
    rcases (mem_activeKeys r1.final k).mp hk with ⟨v, hv, hvact⟩
    have hgv : dictGet r1.final k = some v := dictGet_of_mem _ _ _ hwfF.1 hv
    intro hbn
    have hknot : k ∉ raw.map (fun c => c.oid) :=
      (contains_false_iff _ _).mp ((bnot_eq_true_iff _).mp hbn)
    rw [hfin, dictGet_insertMany, lastIdMatch_append] at hgv
    cases hexp_l : lastIdMatch r1.expired k with
    | some y =>
      rw [hexp_l, some_or, some_or] at hgv
      have hy := lastIdMatch_mem _ _ _ hexp_l
      have hyv : y = v := Option.some.inj hgv
      have hina := hexp_inactive y hy.1
      rw [hyv, hvact] at hina
      exact Bool.noConfusion hina
    | none =>
      rw [hexp_l, none_or] at hgv
      cases hapi_l : lastIdMatch (raw.map (apiOk m now)) k with
      | some y =>
        rw [hapi_l, some_or] at hgv
        have hy := lastIdMatch_mem _ _ _ hapi_l
        rcases List.mem_map.mp hy.1 with ⟨c0, hc0, hye⟩
        have hid : y.id = c0.oid := by
          rw [← hye]
          exact (apiOk_fields m now c0 (hall c0 hc0)).1
        exact hknot (by rw [← hy.2, hid]; exact List.mem_map.mpr ⟨c0, hc0, rfl⟩)
      | none =>
        rw [hapi_l, none_or] at hgv
        have hmemKS : k ∈ ((m.filter (fun p => p.2.is_active)).map
            (fun p => p.1)).filter
              (fun cid => !(raw.map (fun c => c.oid)).contains cid) :=
          List.mem_filter.mpr
            ⟨(mem_activeKeys m k).mpr ⟨v, dictGet_mem m k v hgv, hvact⟩,
              (bnot_eq_true_iff _).mpr ((contains_false_iff _ _).mpr hknot)⟩
        have hvid : v.id = k := hwf.2 (k, v) (dictGet_mem m k v hgv)
        have hmemE : ({ v with is_active := false, changed_at := now, updated_at := now }) ∈ r1.expired := by
          rw [hexp]
          exact List.mem_filterMap.mpr ⟨k, hmemKS, by rw [hgv]; rfl⟩
        exact (lastIdMatch_eq_none_iff _ _).mp hexp_l _ hmemE hvid
  have hins_api : dictInsertMany r1.final (raw.map (apiOk m now)) = r1.final := by
    have hsub : ∀ rec ∈ raw.map (apiOk m now), rec.id ∈ dictKeys r1.final := by
      intro rec hrec
      rcases List.mem_map.mp hrec with ⟨c0, hc0, hce⟩
      obtain ⟨x, hgx, -, -⟩ := hGetApi c0 hc0
      have hid : rec.id = c0.oid := by
        rw [← hce]
        exact (apiOk_fields m now c0 (hall c0 hc0)).1
      rw [hid]
      exact mem_dictKeys_of_mem r1.final (c0.oid, x) (dictGet_mem _ _ _ hgx)
    apply snap_ext
    · exact dictKeys_insertMany_of_sub r1.final _ hsub
    · rw [dictKeys_insertMany_of_sub r1.final _ hsub]
      exact hwfF.1
    · intro k
      rw [dictGet_insertMany]
      cases hl : lastIdMatch (raw.map (apiOk m now)) k with
      | none => rw [none_or]
      | some x =>
        rw [some_or]
        have hx := lastIdMatch_mem _ _ _ hl
        rcases List.mem_map.mp hx.1 with ⟨c0, hc0, hxe⟩
        have hid : x.id = c0.oid := by
          rw [← hxe]
          exact (apiOk_fields m now c0 (hall c0 hc0)).1
        have hk_mem : k ∈ raw.map (fun c => c.oid) := by
          rw [← hx.2, hid]
          exact List.mem_map.mpr ⟨c0, hc0, rfl⟩
        rw [hGetVal k hk_mem, hl]
  unfold sync
  rw [happ2]
  dsimp only
  rw [hnew2, hrev2, hKS2]
  simp only [List.filterMap_nil, List.append_nil]
  rw [rekey_eq r1.final hwfF, hins_api]

/-- Witness for C1 at a concrete input: one active prior record expires
while `"B"` arrives; running `sync` again returns the produced snapshot
unchanged with empty partitions. -/
theorem sync_idempotent_witness :
    SnapWF snapActiveA ∧
    sync (syncOk snapActiveA [rawB] "2025-06-01").final [rawB] "2025-06-01" =
      .ok { final := (syncOk snapActiveA [rawB] "2025-06-01").final, new := [],
            expired := [], revived := [] } := by
  have hwf : SnapWF snapActiveA := by decide
  have h : sync snapActiveA [rawB] "2025-06-01" =
      .ok (syncOk snapActiveA [rawB] "2025-06-01") := rfl
  exact ⟨hwf, sync_idempotent snapActiveA [rawB] "2025-06-01" hwf _ h⟩

end MftPlus
